import Mathlib

/-!
# CloudPDF server (src/server.js) — shallow embedding and verification

This file embeds the data model and operations of the CloudPDF Express
backend (`src/server.js`) in Lean 4 and proves properties about them.

* JSON values are modelled by the inductive type `Json`; `JSON.stringify(v,
  null, 2)` is modelled by `stringifyDB` / `prettyChars`, and `JSON.parse`
  by the recursive-descent parser `parseJson` (fuelled by input length).
  JavaScript numbers are modelled as integers (the program only ever stores
  integer timestamps and byte sizes); strings are modelled by Lean
  `String`s, and control characters (code < 0x20) in strings are outside
  the model (the printer would emit `\u00XX` escapes the parser does not
  read back; the predicate `strOk` marks values inside the model).
* The flat-file DB helpers `loadDB`, `saveDB`, `addItem`, `updateItem`,
  `removeItem`, `findItem` are translated directly, acting on the DB file
  content `Option String` (`none` = file absent).
* Each route handler is a pure state transformer on `SysState`
  (DB-file content plus the set of existing file paths), returning a
  `Response` and an ordered list of side `Effect`s.
-/

namespace CloudPDF

/-- JSON values (JavaScript numbers restricted to integers; see module doc). -/
inductive Json where
  | null : Json
  | bool (b : Bool) : Json
  | num (n : Int) : Json
  | str (s : String) : Json
  | arr (elems : List Json) : Json
  | obj (fields : List (String × Json)) : Json
deriving Repr

/-! ## Digit strings

`Number.prototype.toString(base)` for the integer values the program
prints: base-10 digits inside JSON, base-36 digits in generated ids.
JavaScript uses `0`-`9` then lowercase `a`-`z`. -/

/-- The character for digit value `d` (`0`-`9`, then `a`-`z`). -/
def digitChar (d : Nat) : Char :=
  if d < 10 then Char.ofNat (48 + d) else Char.ofNat (87 + d)

/-- Base-`b` digit expansion, most significant first, with fuel. -/
def natToDigitsAux (b : Nat) : Nat → Nat → List Char
  | 0, _ => []
  | fuel + 1, n =>
    if n < b then [digitChar n]
    else natToDigitsAux b fuel (n / b) ++ [digitChar (n % b)]

/-- `n.toString(b)` for a natural number `n` (digits `0`-`9a`-`z`). -/
def natToDigits (b n : Nat) : List Char := natToDigitsAux b (n + 1) n

/-- Numeric value of a digit character produced by `digitChar`. -/
def digitVal (c : Char) : Nat :=
  if 97 ≤ c.toNat then c.toNat - 87 else c.toNat - 48

/-- Read a digit string back to a number (big-endian accumulator fold). -/
def readDigits (b : Nat) : Nat → List Char → Nat
  | acc, [] => acc
  | acc, c :: cs => readDigits b (acc * b + digitVal c) cs

theorem digitVal_digitChar {b d : Nat} (hb : b ≤ 36) (hd : d < b) :
    digitVal (digitChar d) = d := by
  have hd36 : d < 36 := by omega
  interval_cases d <;> decide

theorem readDigits_append (b : Nat) (acc : Nat) (l₁ l₂ : List Char) :
    readDigits b acc (l₁ ++ l₂) = readDigits b (readDigits b acc l₁) l₂ := by
  induction l₁ generalizing acc with
  | nil => rfl
  | cons c cs ih => simp [readDigits, ih]

theorem readDigits_natToDigitsAux {b : Nat} (hb2 : 2 ≤ b) (hb36 : b ≤ 36)
    (fuel : Nat) : ∀ n acc, n < fuel →
    readDigits b acc (natToDigitsAux b fuel n) = acc * b ^ (natToDigitsAux b fuel n).length + n := by
  induction fuel with
  | zero => intro n acc h; omega
  | succ f ih =>
    intro n acc h
    unfold natToDigitsAux
    by_cases hn : n < b
    · simp [hn, readDigits, digitVal_digitChar hb36 hn]
    · rw [if_neg hn]
      have hdiv : n / b < f := by
        have h1 : n / b < n := Nat.div_lt_self (by omega) (by omega)
        omega
      rw [readDigits_append, ih (n / b) acc hdiv]
      simp only [readDigits, List.length_append, List.length_singleton]
      rw [digitVal_digitChar hb36 (Nat.mod_lt _ (by omega))]
      have h1 : b * (n / b) + n % b = n := Nat.div_add_mod n b
      calc (acc * b ^ (natToDigitsAux b f (n / b)).length + n / b) * b + n % b
          = acc * (b ^ (natToDigitsAux b f (n / b)).length * b) + (b * (n / b) + n % b) := by ring
        _ = acc * b ^ ((natToDigitsAux b f (n / b)).length + 1) + n := by rw [h1, pow_succ]

/-- Reading back the printed digits of `n` recovers `n`. -/
theorem readDigits_natToDigits {b : Nat} (hb2 : 2 ≤ b) (hb36 : b ≤ 36) (n : Nat) :
    readDigits b 0 (natToDigits b n) = n := by
  have := readDigits_natToDigitsAux hb2 hb36 (n + 1) n 0 (by omega)
  simpa [natToDigits] using this

/-- `natToDigits` is injective for a fixed base `2 ≤ b ≤ 36`. -/
theorem natToDigits_injective {b : Nat} (hb2 : 2 ≤ b) (hb36 : b ≤ 36)
    {m n : Nat} (h : natToDigits b m = natToDigits b n) : m = n := by
  have hm := readDigits_natToDigits hb2 hb36 m
  have hn := readDigits_natToDigits hb2 hb36 n
  rw [h] at hm
  omega

/-! ## The printer: `JSON.stringify(v, null, 2)` -/

/-- Two spaces of indentation per depth level (the `2` in `JSON.stringify`). -/
def indentChars (n : Nat) : List Char := List.replicate (2 * n) ' '

/-- Escape one character inside a JSON string literal, as `JSON.stringify`
does: `"` and `\` get a backslash, control characters become `\u00XX`
(outside the parser model, see `strOk`), all else is literal. -/
def escapeChar (c : Char) : List Char :=
  if c = '"' then ['\\', '"']
  else if c = '\\' then ['\\', '\\']
  else if c.toNat < 32 then
    ['\\', 'u', '0', '0', digitChar (c.toNat / 16), digitChar (c.toNat % 16)]
  else [c]

/-- Concatenated escapes of a character list. -/
def escChars : List Char → List Char
  | [] => []
  | c :: cs => escapeChar c ++ escChars cs

/-- A quoted, escaped JSON string literal. -/
def quoteChars (s : String) : List Char := '"' :: escChars s.data ++ ['"']

/-- Decimal rendering of an integer (`String(n)` for integer numbers). -/
def intChars (n : Int) : List Char :=
  if n < 0 then '-' :: natToDigits 10 n.natAbs else natToDigits 10 n.toNat

mutual
/-- `JSON.stringify(v, null, 2)` at indentation depth `ind`, as characters. -/
def prettyChars : Nat → Json → List Char
  | _, .null => ['n', 'u', 'l', 'l']
  | _, .bool true => ['t', 'r', 'u', 'e']
  | _, .bool false => ['f', 'a', 'l', 's', 'e']
  | _, .num n => intChars n
  | _, .str s => quoteChars s
  | _, .arr [] => ['[', ']']
  | ind, .arr (x :: xs) =>
    '[' :: '\n' :: (prettyElems (ind + 1) x xs ++ '\n' :: (indentChars ind ++ [']']))
  | _, .obj [] => ['{', '}']
  | ind, .obj (f :: fs) =>
    '{' :: '\n' :: (prettyMembers (ind + 1) f fs ++ '\n' :: (indentChars ind ++ ['}']))
termination_by ind v => sizeOf v
/-- The comma-and-newline separated elements of a non-empty array. -/
def prettyElems : Nat → Json → List Json → List Char
  | ind, x, [] => indentChars ind ++ prettyChars ind x
  | ind, x, y :: ys =>
    indentChars ind ++ prettyChars ind x ++ ',' :: '\n' :: prettyElems ind y ys
termination_by ind x xs => 1 + sizeOf x + sizeOf xs
/-- The comma-and-newline separated `"key": value` members of a non-empty object. -/
def prettyMembers : Nat → (String × Json) → List (String × Json) → List Char
  | ind, (k, v), [] => indentChars ind ++ quoteChars k ++ ':' :: ' ' :: prettyChars ind v
  | ind, (k, v), f :: fs =>
    indentChars ind ++ quoteChars k ++ ':' :: ' ' :: prettyChars ind v
      ++ ',' :: '\n' :: prettyMembers ind f fs
termination_by ind f fs => 1 + sizeOf f + sizeOf fs
end

/-- `JSON.stringify(db, null, 2)` — the exact serialization `saveDB` writes. -/
def stringifyDB (v : Json) : String := ⟨prettyChars 0 v⟩

/-- Strings (and keys) inside `v` contain no control characters, i.e. the
printed form uses only the `\"`/`\\` escapes the parser reads back. -/
def strOkStr (s : String) : Bool := s.data.all (fun c => 32 ≤ c.toNat)

mutual
/-- All string scalars and object keys in `v` satisfy `strOkStr`. -/
def strOk : Json → Bool
  | .null => true
  | .bool _ => true
  | .num _ => true
  | .str s => strOkStr s
  | .arr xs => strOkList xs
  | .obj fs => strOkFields fs
def strOkList : List Json → Bool
  | [] => true
  | x :: xs => strOk x && strOkList xs
def strOkFields : List (String × Json) → Bool
  | [] => true
  | (k, v) :: fs => strOkStr k && strOk v && strOkFields fs
end

/-! ## The parser: `JSON.parse`

A recursive-descent parser over `List Char`, fuelled (the fuel only bounds
recursion depth through values; `parseJson` passes `length + 1`, which the
round-trip theorems show suffices for any printed value). -/

/-- JSON whitespace. -/
def isWsChar (c : Char) : Bool := c = ' ' || c = '\n' || c = '\t' || c = '\r'

/-- Drop leading whitespace. -/
def skipWs : List Char → List Char
  | [] => []
  | c :: cs => if isWsChar c then skipWs cs else c :: cs

/-- Decode the character following a backslash in a string literal
(`\uXXXX` escapes are not modelled; see `strOk`). -/
def unescape (c : Char) : Option Char :=
  if c = '"' then some '"'
  else if c = '\\' then some '\\'
  else if c = '/' then some '/'
  else if c = 'n' then some '\n'
  else if c = 't' then some '\t'
  else if c = 'r' then some '\r'
  else if c = 'b' then some (Char.ofNat 8)
  else if c = 'f' then some (Char.ofNat 12)
  else none

/-- Parse a string-literal body up to the closing quote; returns the decoded
characters and the remainder after the quote. -/
def parseStrBody : List Char → Option (List Char × List Char)
  | [] => none
  | c :: rest =>
    if c = '"' then some ([], rest)
    else if c = '\\' then
      match rest with
      | [] => none
      | e :: rest' =>
        match unescape e with
        | none => none
        | some d =>
          match parseStrBody rest' with
          | none => none
          | some (cs, r) => some (d :: cs, r)
    else
      match parseStrBody rest with
      | none => none
      | some (cs, r) => some (c :: cs, r)

/-- Parse an optionally signed decimal integer. -/
def parseNumber : List Char → Option (Json × List Char)
  | [] => none
  | c :: rest =>
    if c = '-' then
      let ds := rest.takeWhile Char.isDigit
      if ds.isEmpty then none
      else some (.num (-(readDigits 10 0 ds : Nat)), rest.dropWhile Char.isDigit)
    else
      let ds := (c :: rest).takeWhile Char.isDigit
      if ds.isEmpty then none
      else some (.num ((readDigits 10 0 ds : Nat) : Int), (c :: rest).dropWhile Char.isDigit)

/-- Match a literal keyword suffix, returning the remainder. -/
def dropLit : List Char → List Char → Option (List Char)
  | [], l => some l
  | _ :: _, [] => none
  | c :: cs, x :: xs => if x = c then dropLit cs xs else none

mutual
/-- Parse one JSON value: skip whitespace, then dispatch on the first character. -/
def parseVal : Nat → List Char → Option (Json × List Char)
  | 0, _ => none
  | fuel + 1, l => parseValAt fuel (skipWs l)
termination_by fuel _ => (fuel, 2)
/-- Head dispatch of `parseVal` (input already whitespace-stripped). -/
def parseValAt : Nat → List Char → Option (Json × List Char)
  | _, [] => none
  | fuel, c :: r =>
    if c = 'n' then
      match dropLit ['u', 'l', 'l'] r with
      | some r' => some (.null, r')
      | none => none
    else if c = 't' then
      match dropLit ['r', 'u', 'e'] r with
      | some r' => some (.bool true, r')
      | none => none
    else if c = 'f' then
      match dropLit ['a', 'l', 's', 'e'] r with
      | some r' => some (.bool false, r')
      | none => none
    else if c = '"' then
      match parseStrBody r with
      | some (cs, r') => some (.str ⟨cs⟩, r')
      | none => none
    else if c = '[' then
      match skipWs r with
      | [] => none
      | c' :: r' =>
        if c' = ']' then some (.arr [], r')
        else
          match parseElems fuel (c' :: r') with
          | some (vs, r'') => some (.arr vs, r'')
          | none => none
    else if c = '{' then
      match skipWs r with
      | [] => none
      | c' :: r' =>
        if c' = '}' then some (.obj [], r')
        else
          match parseMembers fuel (c' :: r') with
          | some (fs, r'') => some (.obj fs, r'')
          | none => none
    else if c = '-' || c.isDigit then parseNumber (c :: r)
    else none
termination_by fuel _ => (fuel, 1)
/-- Parse the elements of a non-empty array, consuming the closing `]`. -/
def parseElems : Nat → List Char → Option (List Json × List Char)
  | 0, _ => none
  | fuel + 1, l =>
    match parseVal fuel l with
    | none => none
    | some (v, r) =>
      match skipWs r with
      | [] => none
      | c' :: r' =>
        if c' = ',' then
          match parseElems fuel r' with
          | none => none
          | some (vs, r'') => some (v :: vs, r'')
        else if c' = ']' then some ([v], r')
        else none
termination_by fuel _ => (fuel, 0)
/-- Parse the members of a non-empty object, consuming the closing `}`. -/
def parseMembers : Nat → List Char → Option (List (String × Json) × List Char)
  | 0, _ => none
  | fuel + 1, l =>
    match skipWs l with
    | [] => none
    | c0 :: r =>
      if c0 = '"' then
        match parseStrBody r with
        | none => none
        | some (ks, r') =>
          match skipWs r' with
          | [] => none
          | c1 :: r'' =>
            if c1 = ':' then
              match parseVal fuel r'' with
              | none => none
              | some (v, r₃) =>
                match skipWs r₃ with
                | [] => none
                | c2 :: r₄ =>
                  if c2 = ',' then
                    match parseMembers fuel r₄ with
                    | none => none
                    | some (fs, r₅) => some ((⟨ks⟩, v) :: fs, r₅)
                  else if c2 = '}' then some ([(⟨ks⟩, v)], r₄)
                  else none
            else none
      else none
termination_by fuel _ => (fuel, 0)
end

/-- `JSON.parse`: parse a whole string (only trailing whitespace allowed). -/
def parseJson (s : String) : Option Json :=
  match parseVal (s.length + 1) s.data with
  | some (v, rest) => if (skipWs rest).isEmpty then some v else none
  | none => none

/-! ## Round trip: `parseJson (stringifyDB v) = some v`

The lemmas below establish that the parser inverts the printer on every
value satisfying `strOk` — the key fact behind the store's
load-after-save behaviour. -/

theorem skipWs_ws_append {l₁ : List Char} (h : ∀ c ∈ l₁, isWsChar c = true)
    (l₂ : List Char) : skipWs (l₁ ++ l₂) = skipWs l₂ := by
  induction l₁ with
  | nil => rfl
  | cons c cs ih =>
    have hc := h c (by simp)
    simp only [List.cons_append, skipWs, hc, if_true]
    exact ih (fun d hd => h d (by simp [hd]))

theorem skipWs_cons_not_ws {c : Char} (h : isWsChar c = false) (l : List Char) :
    skipWs (c :: l) = c :: l := by
  simp [skipWs, h]

theorem skipWs_skipWs (l : List Char) : skipWs (skipWs l) = skipWs l := by
  induction l with
  | nil => rfl
  | cons c cs ih =>
    by_cases h : isWsChar c = true
    · simp [skipWs, h, ih]
    · simp only [Bool.not_eq_true] at h
      rw [skipWs_cons_not_ws h, skipWs_cons_not_ws h]

theorem indentChars_ws (n : Nat) : ∀ c ∈ indentChars n, isWsChar c = true := by
  intro c hc
  simp only [indentChars, List.mem_replicate] at hc
  rw [hc.2]; rfl

theorem skipWs_indent_append (n : Nat) (l : List Char) :
    skipWs (indentChars n ++ l) = skipWs l :=
  skipWs_ws_append (indentChars_ws n) l

theorem parseStrBody_escChars (cs : List Char) (rest : List Char)
    (h : ∀ c ∈ cs, 32 ≤ c.toNat) :
    parseStrBody (escChars cs ++ '"' :: rest) = some (cs, rest) := by
  induction cs with
  | nil =>
    rw [escChars, List.nil_append, parseStrBody.eq_def]
    simp
  | cons c cs ih =>
    have hc : 32 ≤ c.toNat := h c (by simp)
    have ih' := ih (fun d hd => h d (by simp [hd]))
    rw [escChars]
    by_cases h1 : c = '"'
    · subst h1
      rw [show escapeChar '"' = ['\\', '"'] from rfl]
      rw [show (['\\', '"'] ++ escChars cs) ++ '"' :: rest
            = '\\' :: '"' :: (escChars cs ++ '"' :: rest) by simp]
      rw [parseStrBody.eq_def]
      simp [unescape, ih']
    · by_cases h2 : c = '\\'
      · subst h2
        rw [show escapeChar '\\' = ['\\', '\\'] from rfl]
        rw [show (['\\', '\\'] ++ escChars cs) ++ '"' :: rest
              = '\\' :: '\\' :: (escChars cs ++ '"' :: rest) by simp]
        rw [parseStrBody.eq_def]
        simp [unescape, ih']
      · have h3 : ¬ c.toNat < 32 := by omega
        rw [show escapeChar c = [c] by simp [escapeChar, h1, h2, h3]]
        rw [show ([c] ++ escChars cs) ++ '"' :: rest
              = c :: (escChars cs ++ '"' :: rest) by simp]
        rw [parseStrBody.eq_def]
        simp [h1, h2, ih']

theorem digitChar_isDigit {d : Nat} (hd : d < 10) : (digitChar d).isDigit = true := by
  interval_cases d <;> decide

theorem natToDigitsAux10_digits (fuel : Nat) :
    ∀ n, n < fuel → ∀ c ∈ natToDigitsAux 10 fuel n, c.isDigit = true := by
  induction fuel with
  | zero => intro n h; omega
  | succ f ih =>
    intro n h c hc
    unfold natToDigitsAux at hc
    by_cases hn : n < 10
    · rw [if_pos hn] at hc
      simp only [List.mem_singleton] at hc
      subst hc
      exact digitChar_isDigit hn
    · rw [if_neg hn] at hc
      rcases List.mem_append.mp hc with h1 | h1
      · exact ih (n / 10) (by omega) c h1
      · simp only [List.mem_singleton] at h1
        subst h1
        exact digitChar_isDigit (Nat.mod_lt _ (by omega))

theorem natToDigits10_digits (n : Nat) : ∀ c ∈ natToDigits 10 n, c.isDigit = true :=
  natToDigitsAux10_digits (n + 1) n (by omega)

theorem natToDigitsAux_ne_nil (b : Nat) (fuel n : Nat) :
    natToDigitsAux b (fuel + 1) n ≠ [] := by
  unfold natToDigitsAux
  by_cases hn : n < b <;> simp [hn]

theorem natToDigits_ne_nil (b n : Nat) : natToDigits b n ≠ [] :=
  natToDigitsAux_ne_nil b n n

/-- Head condition at a value boundary: the following character (if any) is
not a digit, so number parsing stops exactly at the printed digits. -/
def numBoundary : List Char → Bool
  | [] => true
  | c :: _ => !c.isDigit

theorem takeWhile_digits_append {ds : List Char}
    (h1 : ∀ c ∈ ds, c.isDigit = true) {rest : List Char} (h2 : numBoundary rest = true) :
    (ds ++ rest).takeWhile Char.isDigit = ds
      ∧ (ds ++ rest).dropWhile Char.isDigit = rest := by
  induction ds with
  | nil =>
    cases rest with
    | nil => exact ⟨rfl, rfl⟩
    | cons c cs =>
      have hc : c.isDigit = false := by
        rw [numBoundary] at h2
        simpa using h2
      simp [List.takeWhile_cons, List.dropWhile_cons, hc]
  | cons c cs ih =>
    have hc := h1 c (by simp)
    have hih := ih (fun d hd => h1 d (by simp [hd]))
    simp [List.takeWhile_cons, List.dropWhile_cons, hc, hih.1, hih.2]

theorem parseNumber_intChars (n : Int) (rest : List Char) (h : numBoundary rest = true) :
    parseNumber (intChars n ++ rest) = some (.num n, rest) := by
  by_cases hn : n < 0
  · obtain ⟨htake, hdrop⟩ :=
      takeWhile_digits_append (natToDigits10_digits n.natAbs) h
    have habs : (-((n.natAbs : Nat) : Int)) = n := by omega
    rw [intChars, if_pos hn, List.cons_append, parseNumber]
    rw [if_pos rfl]
    simp only [htake, hdrop, List.isEmpty_eq_true]
    rw [if_neg (natToDigits_ne_nil 10 n.natAbs)]
    rw [readDigits_natToDigits (by omega) (by omega), habs]
  · obtain ⟨htake, hdrop⟩ :=
      takeWhile_digits_append (natToDigits10_digits n.toNat) h
    have htonat : (((n.toNat : Nat) : Int)) = n := by omega
    obtain ⟨c, cs, hcons⟩ : ∃ c cs, natToDigits 10 n.toNat = c :: cs := by
      cases hh : natToDigits 10 n.toNat with
      | nil => exact absurd hh (natToDigits_ne_nil 10 n.toNat)
      | cons c cs => exact ⟨c, cs, rfl⟩
    have hcdig : c.isDigit = true := by
      have hall := natToDigits10_digits n.toNat
      rw [hcons] at hall
      exact hall c (by simp)
    have hcne : c ≠ '-' := by
      intro hEq
      subst hEq
      exact absurd hcdig (by decide)
    have hread : readDigits 10 0 (c :: cs) = n.toNat := by
      rw [← hcons]
      exact readDigits_natToDigits (by omega) (by omega) n.toNat
    rw [hcons] at htake hdrop
    rw [intChars, if_neg hn, hcons, List.cons_append, parseNumber]
    rw [if_neg hcne]
    simp only [← List.cons_append, htake, hdrop, List.isEmpty_eq_true]
    rw [if_neg (by simp)]
    rw [hread, htonat]

/-! Fuel cost of parsing a printed value: bounds the fuel the parser needs. -/

mutual
/-- Fuel needed by `parseVal` on the printed form of `v`. -/
def costV : Json → Nat
  | .null => 1
  | .bool _ => 1
  | .num _ => 1
  | .str _ => 1
  | .arr [] => 1
  | .arr (x :: xs) => 1 + costE x xs
  | .obj [] => 1
  | .obj (f :: fs) => 1 + costM f fs
termination_by v => sizeOf v
/-- Fuel needed by `parseElems` on printed array elements. -/
def costE : Json → List Json → Nat
  | x, [] => 1 + costV x
  | x, y :: ys => 1 + max (costV x) (costE y ys)
termination_by x xs => 1 + sizeOf x + sizeOf xs
/-- Fuel needed by `parseMembers` on printed object members. -/
def costM : (String × Json) → List (String × Json) → Nat
  | (_, v), [] => 1 + costV v
  | (_, v), f :: fs => 1 + max (costV v) (costM f fs)
termination_by f fs => 1 + sizeOf f + sizeOf fs
end

theorem costV_pos (v : Json) : 1 ≤ costV v := by
  cases v with
  | arr l => cases l <;> simp [costV]
  | obj l => cases l <;> simp [costV]
  | _ => simp [costV]

theorem parseVal_skipWs (fuel : Nat) (l : List Char) :
    parseVal fuel (skipWs l) = parseVal fuel l := by
  cases fuel with
  | zero => simp [parseVal]
  | succ f =>
    simp only [parseVal]
    rw [skipWs_skipWs]

theorem parseVal_ws_append {ws : List Char} (h : ∀ c ∈ ws, isWsChar c = true)
    (fuel : Nat) (l : List Char) : parseVal fuel (ws ++ l) = parseVal fuel l := by
  cases fuel with
  | zero => simp [parseVal]
  | succ f =>
    simp only [parseVal]
    rw [skipWs_ws_append h]

theorem parseElems_skipWs (fuel : Nat) (l : List Char) :
    parseElems fuel (skipWs l) = parseElems fuel l := by
  cases fuel with
  | zero => simp [parseElems]
  | succ f =>
    simp only [parseElems]
    rw [parseVal_skipWs]

theorem parseElems_ws_append {ws : List Char} (h : ∀ c ∈ ws, isWsChar c = true)
    (fuel : Nat) (l : List Char) : parseElems fuel (ws ++ l) = parseElems fuel l := by
  cases fuel with
  | zero => simp [parseElems]
  | succ f =>
    simp only [parseElems]
    rw [parseVal_ws_append h]

theorem parseMembers_skipWs (fuel : Nat) (l : List Char) :
    parseMembers fuel (skipWs l) = parseMembers fuel l := by
  cases fuel with
  | zero => simp [parseMembers]
  | succ f =>
    simp only [parseMembers]
    rw [skipWs_skipWs]

theorem parseMembers_ws_append {ws : List Char} (h : ∀ c ∈ ws, isWsChar c = true)
    (fuel : Nat) (l : List Char) : parseMembers fuel (ws ++ l) = parseMembers fuel l := by
  cases fuel with
  | zero => simp [parseMembers]
  | succ f =>
    simp only [parseMembers]
    rw [skipWs_ws_append h]

theorem isDigit_facts {c : Char} (hd : c.isDigit = true) :
    isWsChar c = false ∧ c ≠ ']' ∧ c ≠ 'n' ∧ c ≠ 't' ∧ c ≠ 'f'
      ∧ c ≠ '"' ∧ c ≠ '[' ∧ c ≠ '{' := by
  refine ⟨?_, ?_, ?_, ?_, ?_, ?_, ?_, ?_⟩
  · by_contra hws
    simp only [Bool.not_eq_false] at hws
    simp only [isWsChar, Bool.or_eq_true, decide_eq_true_eq] at hws
    rcases hws with ((h | h) | h) | h <;> (subst h; exact absurd hd (by decide))
  all_goals (intro h; subst h; exact absurd hd (by decide))

/-- The first character of any printed value is not whitespace and not `]`. -/
theorem prettyChars_head (ind : Nat) (v : Json) :
    ∃ c t, prettyChars ind v = c :: t ∧ isWsChar c = false ∧ c ≠ ']' := by
  cases v with
  | null => exact ⟨'n', ['u', 'l', 'l'], by simp [prettyChars], by decide, by decide⟩
  | bool b => cases b with
    | true => exact ⟨'t', ['r', 'u', 'e'], by simp [prettyChars], by decide, by decide⟩
    | false => exact ⟨'f', ['a', 'l', 's', 'e'], by simp [prettyChars], by decide, by decide⟩
  | str s =>
    exact ⟨'"', escChars s.data ++ ['"'], by simp [prettyChars, quoteChars], by decide, by decide⟩
  | num n =>
    rw [show prettyChars ind (.num n) = intChars n from by simp [prettyChars]]
    by_cases hn : n < 0
    · exact ⟨'-', _, by rw [intChars, if_pos hn], by decide, by decide⟩
    · obtain ⟨c, cs, hcons⟩ : ∃ c cs, natToDigits 10 n.toNat = c :: cs := by
        cases hh : natToDigits 10 n.toNat with
        | nil => exact absurd hh (natToDigits_ne_nil 10 n.toNat)
        | cons c cs => exact ⟨c, cs, rfl⟩
      have hcdig : c.isDigit = true := by
        have hall := natToDigits10_digits n.toNat
        rw [hcons] at hall
        exact hall c (by simp)
      obtain ⟨h1, h2, _⟩ := isDigit_facts hcdig
      exact ⟨c, cs, by rw [intChars, if_neg hn, hcons], h1, h2⟩
  | arr l => cases l with
    | nil => exact ⟨'[', [']'], by simp [prettyChars], by decide, by decide⟩
    | cons x xs =>
      exact ⟨'[', '\n' :: (prettyElems (ind + 1) x xs ++ '\n' :: (indentChars ind ++ [']'])),
        by simp [prettyChars], by decide, by decide⟩
  | obj l => cases l with
    | nil => exact ⟨'{', ['}'], by simp [prettyChars], by decide, by decide⟩
    | cons f fs =>
      exact ⟨'{', '\n' :: (prettyMembers (ind + 1) f fs ++ '\n' :: (indentChars ind ++ ['}'])),
        by simp [prettyChars], by decide, by decide⟩

theorem mk_data (s : String) : (⟨s.data⟩ : String) = s := rfl

theorem intChars_head (n : Int) :
    ∃ c t, intChars n = c :: t ∧ (c = '-' ∨ c.isDigit = true) := by
  by_cases hn : n < 0
  · exact ⟨'-', _, by rw [intChars, if_pos hn], Or.inl rfl⟩
  · obtain ⟨c, cs, hcons⟩ : ∃ c cs, natToDigits 10 n.toNat = c :: cs := by
      cases hh : natToDigits 10 n.toNat with
      | nil => exact absurd hh (natToDigits_ne_nil 10 n.toNat)
      | cons c cs => exact ⟨c, cs, rfl⟩
    have hcdig : c.isDigit = true := by
      have hall := natToDigits10_digits n.toNat
      rw [hcons] at hall
      exact hall c (by simp)
    exact ⟨c, cs, by rw [intChars, if_neg hn, hcons], Or.inr hcdig⟩

theorem numStart_facts {c : Char} (h : c = '-' ∨ c.isDigit = true) :
    isWsChar c = false ∧ c ≠ 'n' ∧ c ≠ 't' ∧ c ≠ 'f' ∧ c ≠ '"' ∧ c ≠ '[' ∧ c ≠ '{'
      ∧ (c = '-' || c.isDigit) = true := by
  rcases h with rfl | hd
  · exact ⟨by decide, by decide, by decide, by decide, by decide, by decide, by decide, by decide⟩
  · obtain ⟨h1, _, h3, h4, h5, h6, h7, h8⟩ := isDigit_facts hd
    exact ⟨h1, h3, h4, h5, h6, h7, h8, by simp [hd]⟩

theorem costE_pos (x : Json) (xs : List Json) : 1 ≤ costE x xs := by
  cases xs <;> simp [costE]

theorem costM_pos (k : String) (v : Json) (fs : List (String × Json)) :
    1 ≤ costM (k, v) fs := by
  cases fs <;> simp [costM]

theorem strOkList_cons {x : Json} {xs : List Json} (h : strOkList (x :: xs) = true) :
    strOk x = true ∧ strOkList xs = true := by
  rw [strOkList] at h
  exact Bool.and_eq_true_iff.mp h

theorem strOkFields_cons {k : String} {v : Json} {fs : List (String × Json)}
    (h : strOkFields ((k, v) :: fs) = true) :
    strOkStr k = true ∧ strOk v = true ∧ strOkFields fs = true := by
  rw [strOkFields] at h
  obtain ⟨h1, h2⟩ := Bool.and_eq_true_iff.mp h
  obtain ⟨h3, h4⟩ := Bool.and_eq_true_iff.mp h1
  exact ⟨h3, h4, h2⟩

theorem strOkStr_chars {s : String} (h : strOkStr s = true) :
    ∀ c ∈ s.data, 32 ≤ c.toNat := by
  intro c hc
  have := List.all_eq_true.mp h c hc
  simpa using this

theorem prettyElems_decomp (ind : Nat) (x : Json) (xs : List Json) :
    ∃ T, prettyElems ind x xs = indentChars ind ++ (prettyChars ind x ++ T) := by
  cases xs with
  | nil => exact ⟨[], by simp [prettyElems]⟩
  | cons y ys => exact ⟨',' :: '\n' :: prettyElems ind y ys, by simp [prettyElems]⟩

theorem prettyMembers_decomp (ind : Nat) (k : String) (v : Json)
    (fs : List (String × Json)) :
    ∃ T, prettyMembers ind (k, v) fs
      = indentChars ind ++ (quoteChars k ++ (':' :: ' ' :: (prettyChars ind v ++ T))) := by
  cases fs with
  | nil => exact ⟨[], by simp [prettyMembers]⟩
  | cons f fs' =>
    exact ⟨',' :: '\n' :: prettyMembers ind f fs', by simp [prettyMembers]⟩

theorem quoteChars_append (k : String) (W : List Char) :
    quoteChars k ++ W = '"' :: (escChars k.data ++ ('"' :: W)) := by
  simp [quoteChars]

theorem skipWs_newline (l : List Char) : skipWs ('\n' :: l) = skipWs l := by
  simp [skipWs, show isWsChar '\n' = true from by decide]

/-- Master round-trip lemma: with enough fuel, the parser reads back exactly
the printed form of any value whose strings are in the model. -/
theorem parse_pretty_master (fuel : Nat) :
    (∀ v ind rest, strOk v = true → costV v ≤ fuel → numBoundary rest = true →
      parseVal fuel (prettyChars ind v ++ rest) = some (v, rest))
    ∧ (∀ x xs ind ws rest, strOk x = true → strOkList xs = true → costE x xs ≤ fuel →
        (∀ c ∈ ws, isWsChar c = true) →
        parseElems fuel (prettyElems ind x xs ++ '\n' :: (ws ++ ']' :: rest))
          = some (x :: xs, rest))
    ∧ (∀ k v fs ind ws rest, strOkStr k = true → strOk v = true → strOkFields fs = true →
        costM (k, v) fs ≤ fuel →
        (∀ c ∈ ws, isWsChar c = true) →
        parseMembers fuel (prettyMembers ind (k, v) fs ++ '\n' :: (ws ++ '}' :: rest))
          = some ((k, v) :: fs, rest)) := by
  induction fuel using Nat.strong_induction_on with
  | _ fuel IH =>
  refine ⟨?_, ?_, ?_⟩
  · -- parseVal on a printed value
    intro v ind rest hok hcost hnb
    obtain ⟨g, rfl⟩ : ∃ g, fuel = g + 1 := ⟨fuel - 1, by have := costV_pos v; omega⟩
    simp only [parseVal]
    cases v with
    | null =>
      rw [show prettyChars ind .null = ['n', 'u', 'l', 'l'] from by simp [prettyChars]]
      rw [show (['n', 'u', 'l', 'l'] : List Char) ++ rest = 'n' :: 'u' :: 'l' :: 'l' :: rest
          from by simp]
      rw [skipWs_cons_not_ws (by decide)]
      simp only [parseValAt]
      rw [if_pos trivial]
      rw [show dropLit ['u', 'l', 'l'] ('u' :: 'l' :: 'l' :: rest) = some rest
          from by simp [dropLit]]
    | bool b =>
      cases b with
      | true =>
        rw [show prettyChars ind (.bool true) = ['t', 'r', 'u', 'e'] from by simp [prettyChars]]
        rw [show (['t', 'r', 'u', 'e'] : List Char) ++ rest = 't' :: 'r' :: 'u' :: 'e' :: rest
            from by simp]
        rw [skipWs_cons_not_ws (by decide)]
        simp only [parseValAt]
        rw [if_pos trivial]
        rw [show dropLit ['r', 'u', 'e'] ('r' :: 'u' :: 'e' :: rest) = some rest
            from by simp [dropLit]]
        rw [if_neg (by decide)]
      | false =>
        rw [show prettyChars ind (.bool false) = ['f', 'a', 'l', 's', 'e']
            from by simp [prettyChars]]
        rw [show (['f', 'a', 'l', 's', 'e'] : List Char) ++ rest
            = 'f' :: 'a' :: 'l' :: 's' :: 'e' :: rest from by simp]
        rw [skipWs_cons_not_ws (by decide)]
        simp only [parseValAt]
        rw [if_pos trivial]
        rw [show dropLit ['a', 'l', 's', 'e'] ('a' :: 'l' :: 's' :: 'e' :: rest) = some rest
            from by simp [dropLit]]
        rw [if_neg (by decide), if_neg (by decide)]
    | num n =>
      obtain ⟨c, t, hct, hcd⟩ := intChars_head n
      obtain ⟨hws0, hn1, hn2, hn3, hn4, hn5, hn6, hn7⟩ := numStart_facts hcd
      rw [show prettyChars ind (.num n) = intChars n from by simp [prettyChars]]
      rw [hct, List.cons_append, skipWs_cons_not_ws hws0]
      simp only [parseValAt]
      rw [if_neg hn1, if_neg hn2, if_neg hn3, if_neg hn4, if_neg hn5, if_neg hn6, if_pos hn7]
      rw [← List.cons_append, ← hct]
      exact parseNumber_intChars n rest hnb
    | str s =>
      have hstr : ∀ c ∈ s.data, 32 ≤ c.toNat := strOkStr_chars (by simpa [strOk] using hok)
      rw [show prettyChars ind (.str s) = quoteChars s from by simp [prettyChars]]
      rw [quoteChars_append]
      rw [skipWs_cons_not_ws (by decide)]
      simp only [parseValAt]
      rw [if_pos trivial]
      rw [parseStrBody_escChars s.data rest hstr]
      rw [if_neg (by decide), if_neg (by decide), if_neg (by decide)]
    | arr l =>
      cases l with
      | nil =>
        rw [show prettyChars ind (.arr []) = ['[', ']'] from by simp [prettyChars]]
        rw [show (['[', ']'] : List Char) ++ rest = '[' :: ']' :: rest from by simp]
        rw [skipWs_cons_not_ws (by decide)]
        simp only [parseValAt]
        rw [if_pos trivial]
        rw [skipWs_cons_not_ws (by decide)]
        rw [if_neg (by decide), if_neg (by decide), if_neg (by decide), if_neg (by decide)]
        simp
      | cons x xs =>
        obtain ⟨hx, hxs⟩ := strOkList_cons (by simpa [strOk] using hok)
        have hce : costE x xs ≤ g := by
          have hc1 : costV (.arr (x :: xs)) = 1 + costE x xs := by simp [costV]
          omega
        rw [show prettyChars ind (.arr (x :: xs))
            = '[' :: '\n' :: (prettyElems (ind + 1) x xs ++ '\n' :: (indentChars ind ++ [']']))
            from by simp [prettyChars]]
        rw [show ('[' :: '\n' ::
              (prettyElems (ind + 1) x xs ++ '\n' :: (indentChars ind ++ [']']))) ++ rest
            = '[' :: ('\n' ::
              (prettyElems (ind + 1) x xs ++ '\n' :: (indentChars ind ++ (']' :: rest))))
            from by simp]
        rw [skipWs_cons_not_ws (by decide)]
        simp only [parseValAt]
        rw [if_pos trivial]
        obtain ⟨T, hT⟩ := prettyElems_decomp (ind + 1) x xs
        obtain ⟨c₀, t₀, hc₀, hnws₀, hne₀⟩ := prettyChars_head (ind + 1) x
        have hscrut : skipWs ('\n' ::
              (prettyElems (ind + 1) x xs ++ '\n' :: (indentChars ind ++ (']' :: rest))))
            = c₀ :: (t₀ ++ (T ++ '\n' :: (indentChars ind ++ (']' :: rest)))) := by
          rw [skipWs_newline, hT, List.append_assoc, skipWs_ws_append (indentChars_ws _),
            List.append_assoc, hc₀, List.cons_append, skipWs_cons_not_ws hnws₀]
        rw [hscrut]
        have habs : parseElems g
              (c₀ :: (t₀ ++ (T ++ '\n' :: (indentChars ind ++ (']' :: rest)))))
            = some (x :: xs, rest) := by
          rw [← hscrut, skipWs_newline, parseElems_skipWs]
          exact (IH g (by omega)).2.1 x xs (ind + 1) (indentChars ind) rest hx hxs hce
            (indentChars_ws ind)
        simp [hne₀, habs]
    | obj l =>
      cases l with
      | nil =>
        rw [show prettyChars ind (.obj []) = ['{', '}'] from by simp [prettyChars]]
        rw [show (['{', '}'] : List Char) ++ rest = '{' :: '}' :: rest from by simp]
        rw [skipWs_cons_not_ws (by decide)]
        simp only [parseValAt]
        rw [if_pos trivial]
        rw [skipWs_cons_not_ws (by decide)]
        simp
      | cons f fs =>
        obtain ⟨k, v⟩ := f
        obtain ⟨hk, hv, hfs⟩ := strOkFields_cons (by simpa [strOk] using hok)
        have hcm : costM (k, v) fs ≤ g := by
          have hc1 : costV (.obj ((k, v) :: fs)) = 1 + costM (k, v) fs := by simp [costV]
          omega
        rw [show prettyChars ind (.obj ((k, v) :: fs))
            = '{' :: '\n' ::
              (prettyMembers (ind + 1) (k, v) fs ++ '\n' :: (indentChars ind ++ ['}']))
            from by simp [prettyChars]]
        rw [show ('{' :: '\n' ::
              (prettyMembers (ind + 1) (k, v) fs ++ '\n' :: (indentChars ind ++ ['}']))) ++ rest
            = '{' :: ('\n' ::
              (prettyMembers (ind + 1) (k, v) fs ++ '\n' :: (indentChars ind ++ ('}' :: rest))))
            from by simp]
        rw [skipWs_cons_not_ws (by decide)]
        simp only [parseValAt]
        rw [if_pos trivial]
        obtain ⟨T, hT⟩ := prettyMembers_decomp (ind + 1) k v fs
        have hscrut : skipWs ('\n' ::
              (prettyMembers (ind + 1) (k, v) fs ++ '\n' :: (indentChars ind ++ ('}' :: rest))))
            = '"' :: (escChars k.data ++ '"' :: ':' :: ' ' ::
                (prettyChars (ind + 1) v ++ (T ++ '\n' :: (indentChars ind ++ '}' :: rest)))) := by
          rw [skipWs_newline, hT, List.append_assoc, skipWs_ws_append (indentChars_ws _),
            quoteChars_append, List.cons_append, skipWs_cons_not_ws (by decide)]
          simp
        rw [hscrut]
        have habs : parseMembers g
              ('"' :: (escChars k.data ++ '"' :: ':' :: ' ' ::
                (prettyChars (ind + 1) v ++ (T ++ '\n' :: (indentChars ind ++ '}' :: rest)))))
            = some ((k, v) :: fs, rest) := by
          rw [← hscrut, skipWs_newline, parseMembers_skipWs]
          exact (IH g (by omega)).2.2 k v fs (ind + 1) (indentChars ind) rest hk hv hfs hcm
            (indentChars_ws ind)
        simp [habs]
  · -- parseElems on printed elements
    intro x xs ind ws rest hx hxs hcost hws
    obtain ⟨g, rfl⟩ : ∃ g, fuel = g + 1 := ⟨fuel - 1, by have := costE_pos x xs; omega⟩
    simp only [parseElems]
    have hskipTail : skipWs ('\n' :: (ws ++ ']' :: rest)) = ']' :: rest := by
      rw [skipWs_newline, skipWs_ws_append hws, skipWs_cons_not_ws (by decide)]
    cases xs with
    | nil =>
      have hcv : costV x ≤ g := by
        have hc1 : costE x [] = 1 + costV x := by simp [costE]
        omega
      rw [show prettyElems ind x [] = indentChars ind ++ prettyChars ind x
          from by simp [prettyElems]]
      rw [List.append_assoc, parseVal_ws_append (indentChars_ws ind)]
      rw [(IH g (by omega)).1 x ind ('\n' :: (ws ++ ']' :: rest)) hx hcv (by simp [numBoundary])]
      simp [hskipTail]
    | cons y ys =>
      obtain ⟨hy, hys⟩ := strOkList_cons hxs
      have hcv : costV x ≤ g := by
        have hc1 : costE x (y :: ys) = 1 + max (costV x) (costE y ys) := by simp [costE]
        omega
      have hcey : costE y ys ≤ g := by
        have hc1 : costE x (y :: ys) = 1 + max (costV x) (costE y ys) := by simp [costE]
        omega
      rw [show prettyElems ind x (y :: ys)
          = indentChars ind ++ prettyChars ind x ++ ',' :: '\n' :: prettyElems ind y ys
          from by simp [prettyElems]]
      rw [show (indentChars ind ++ prettyChars ind x ++ ',' :: '\n' :: prettyElems ind y ys)
              ++ '\n' :: (ws ++ ']' :: rest)
          = indentChars ind ++ (prettyChars ind x
              ++ ',' :: '\n' :: (prettyElems ind y ys ++ '\n' :: (ws ++ ']' :: rest)))
          from by simp]
      rw [parseVal_ws_append (indentChars_ws ind)]
      rw [(IH g (by omega)).1 x ind
        (',' :: '\n' :: (prettyElems ind y ys ++ '\n' :: (ws ++ ']' :: rest))) hx hcv
        (by simp [numBoundary])]
      have hrec : parseElems g ('\n' :: (prettyElems ind y ys ++ '\n' :: (ws ++ ']' :: rest)))
          = some (y :: ys, rest) := by
        rw [show ('\n' :: (prettyElems ind y ys ++ '\n' :: (ws ++ ']' :: rest)))
            = ['\n'] ++ (prettyElems ind y ys ++ '\n' :: (ws ++ ']' :: rest)) from rfl]
        rw [parseElems_ws_append (by intro c hc; simp at hc; rw [hc]; rfl)]
        exact (IH g (by omega)).2.1 y ys ind ws rest hy hys hcey hws
      simp [skipWs_cons_not_ws (show isWsChar ',' = false from by decide), hrec]
  · -- parseMembers on printed members
    intro k v fs ind ws rest hk hv hfs hcost hws
    obtain ⟨g, rfl⟩ : ∃ g, fuel = g + 1 := ⟨fuel - 1, by have := costM_pos k v fs; omega⟩
    simp only [parseMembers]
    have hskipTail : skipWs ('\n' :: (ws ++ '}' :: rest)) = '}' :: rest := by
      rw [skipWs_newline, skipWs_ws_append hws, skipWs_cons_not_ws (by decide)]
    have hkchars : ∀ c ∈ k.data, 32 ≤ c.toNat := strOkStr_chars hk
    cases fs with
    | nil =>
      have hcv : costV v ≤ g := by
        have hc1 : costM (k, v) [] = 1 + costV v := by simp [costM]
        omega
      rw [show prettyMembers ind (k, v) []
          = indentChars ind ++ quoteChars k ++ ':' :: ' ' :: prettyChars ind v
          from by simp [prettyMembers]]
      rw [show (indentChars ind ++ quoteChars k ++ ':' :: ' ' :: prettyChars ind v)
              ++ '\n' :: (ws ++ '}' :: rest)
          = indentChars ind ++ (quoteChars k
              ++ ':' :: ' ' :: (prettyChars ind v ++ '\n' :: (ws ++ '}' :: rest)))
          from by simp]
      rw [quoteChars_append]
      rw [show indentChars ind ++ '"' :: (escChars k.data
            ++ ('"' :: (':' :: ' ' :: (prettyChars ind v ++ '\n' :: (ws ++ '}' :: rest)))))
          = indentChars ind ++ ('"' :: (escChars k.data
            ++ ('"' :: (':' :: ' ' :: (prettyChars ind v ++ '\n' :: (ws ++ '}' :: rest))))))
          from rfl]
      rw [skipWs_ws_append (indentChars_ws ind), skipWs_cons_not_ws (by decide)]
      have hps := parseStrBody_escChars k.data
        (':' :: ' ' :: (prettyChars ind v ++ '\n' :: (ws ++ '}' :: rest))) hkchars
      have hvsp : parseVal g (' ' :: (prettyChars ind v ++ '\n' :: (ws ++ '}' :: rest)))
          = some (v, '\n' :: (ws ++ '}' :: rest)) := by
        rw [show (' ' :: (prettyChars ind v ++ '\n' :: (ws ++ '}' :: rest)))
            = [' '] ++ (prettyChars ind v ++ '\n' :: (ws ++ '}' :: rest)) from rfl]
        rw [parseVal_ws_append (by intro c hc; simp at hc; rw [hc]; rfl)]
        exact (IH g (by omega)).1 v ind ('\n' :: (ws ++ '}' :: rest)) hv hcv
          (by simp [numBoundary])
      simp [hps, hvsp, hskipTail, mk_data,
        skipWs_cons_not_ws (show isWsChar ':' = false from by decide)]
    | cons f fs' =>
      obtain ⟨k', v'⟩ := f
      obtain ⟨hk', hv', hfs'⟩ := strOkFields_cons hfs
      have hcv : costV v ≤ g := by
        have hc1 : costM (k, v) ((k', v') :: fs') = 1 + max (costV v) (costM (k', v') fs') := by
          simp [costM]
        omega
      have hcm' : costM (k', v') fs' ≤ g := by
        have hc1 : costM (k, v) ((k', v') :: fs') = 1 + max (costV v) (costM (k', v') fs') := by
          simp [costM]
        omega
      rw [show prettyMembers ind (k, v) ((k', v') :: fs')
          = indentChars ind ++ quoteChars k ++ ':' :: ' ' :: prettyChars ind v
              ++ ',' :: '\n' :: prettyMembers ind (k', v') fs'
          from by simp [prettyMembers]]
      rw [show (indentChars ind ++ quoteChars k ++ ':' :: ' ' :: prettyChars ind v
              ++ ',' :: '\n' :: prettyMembers ind (k', v') fs') ++ '\n' :: (ws ++ '}' :: rest)
          = indentChars ind ++ (quoteChars k ++ ':' :: ' ' :: (prettyChars ind v
              ++ ',' :: '\n' :: (prettyMembers ind (k', v') fs' ++ '\n' :: (ws ++ '}' :: rest))))
          from by simp]
      rw [quoteChars_append]
      rw [skipWs_ws_append (indentChars_ws ind), skipWs_cons_not_ws (by decide)]
      have hps := parseStrBody_escChars k.data
        (':' :: ' ' :: (prettyChars ind v ++ ',' :: '\n' ::
          (prettyMembers ind (k', v') fs' ++ '\n' :: (ws ++ '}' :: rest)))) hkchars
      have hvsp : parseVal g (' ' :: (prettyChars ind v ++ ',' :: '\n' ::
            (prettyMembers ind (k', v') fs' ++ '\n' :: (ws ++ '}' :: rest))))
          = some (v, ',' :: '\n' ::
            (prettyMembers ind (k', v') fs' ++ '\n' :: (ws ++ '}' :: rest))) := by
        rw [show (' ' :: (prettyChars ind v ++ ',' :: '\n' ::
              (prettyMembers ind (k', v') fs' ++ '\n' :: (ws ++ '}' :: rest))))
            = [' '] ++ (prettyChars ind v ++ ',' :: '\n' ::
              (prettyMembers ind (k', v') fs' ++ '\n' :: (ws ++ '}' :: rest))) from rfl]
        rw [parseVal_ws_append (by intro c hc; simp at hc; rw [hc]; rfl)]
        exact (IH g (by omega)).1 v ind
          (',' :: '\n' :: (prettyMembers ind (k', v') fs' ++ '\n' :: (ws ++ '}' :: rest)))
          hv hcv (by simp [numBoundary])
      have hrec : parseMembers g
            ('\n' :: (prettyMembers ind (k', v') fs' ++ '\n' :: (ws ++ '}' :: rest)))
          = some ((k', v') :: fs', rest) := by
        rw [show ('\n' :: (prettyMembers ind (k', v') fs' ++ '\n' :: (ws ++ '}' :: rest)))
            = ['\n'] ++ (prettyMembers ind (k', v') fs' ++ '\n' :: (ws ++ '}' :: rest)) from rfl]
        rw [parseMembers_ws_append (by intro c hc; simp at hc; rw [hc]; rfl)]
        exact (IH g (by omega)).2.2 k' v' fs' ind ws rest hk' hv' hfs' hcm' hws
      simp [hps, hvsp, hrec, mk_data,
        skipWs_cons_not_ws (show isWsChar ':' = false from by decide),
        skipWs_cons_not_ws (show isWsChar ',' = false from by decide)]

end CloudPDF

namespace CloudPDF

theorem prettyChars_len_pos (ind : Nat) (v : Json) : 1 ≤ (prettyChars ind v).length := by
  obtain ⟨c, t, h, _, _⟩ := prettyChars_head ind v
  rw [h]
  simp

/-- The parse cost of a value is bounded by the length of its printed form,
so `parseJson`'s input-length fuel always suffices. -/
theorem cost_le_len (n : Nat) :
    (∀ v ind, sizeOf v ≤ n → costV v ≤ (prettyChars ind v).length)
    ∧ (∀ x xs ind, sizeOf x + sizeOf xs ≤ n → costE x xs ≤ 1 + (prettyElems ind x xs).length)
    ∧ (∀ k v fs ind, sizeOf v + sizeOf fs ≤ n →
        costM (k, v) fs ≤ 1 + (prettyMembers ind (k, v) fs).length) := by
  induction n using Nat.strong_induction_on with
  | _ n IH =>
  refine ⟨?_, ?_, ?_⟩
  · intro v ind hs
    cases v with
    | null => simp [costV, prettyChars]
    | bool b => cases b <;> simp [costV, prettyChars]
    | num m =>
      have h1 := prettyChars_len_pos ind (.num m)
      simp only [costV]
      omega
    | str s =>
      have h1 := prettyChars_len_pos ind (.str s)
      simp only [costV]
      omega
    | arr l =>
      cases l with
      | nil => simp [costV, prettyChars]
      | cons x xs =>
        have hsz : sizeOf x + sizeOf xs < n := by
          have h1 : sizeOf (Json.arr (x :: xs)) = 1 + (1 + sizeOf x + sizeOf xs) := by
            simp
          omega
        have hE := (IH (sizeOf x + sizeOf xs) hsz).2.1 x xs (ind + 1) le_rfl
        have hcEq : costV (Json.arr (x :: xs)) = 1 + costE x xs := by simp [costV]
        have hlen : (prettyElems (ind + 1) x xs).length + 3
            ≤ (prettyChars ind (Json.arr (x :: xs))).length := by
          simp [prettyChars, indentChars]
        omega
    | obj l =>
      cases l with
      | nil => simp [costV, prettyChars]
      | cons f fs =>
        obtain ⟨k, v⟩ := f
        have hsz : sizeOf v + sizeOf fs < n := by
          have h1 : sizeOf (Json.obj ((k, v) :: fs))
              = 1 + (1 + (1 + sizeOf k + sizeOf v) + sizeOf fs) := by
            simp
          omega
        have hM := (IH (sizeOf v + sizeOf fs) hsz).2.2 k v fs (ind + 1) le_rfl
        have hcEq : costV (Json.obj ((k, v) :: fs)) = 1 + costM (k, v) fs := by simp [costV]
        have hlen : (prettyMembers (ind + 1) (k, v) fs).length + 3
            ≤ (prettyChars ind (Json.obj ((k, v) :: fs))).length := by
          simp [prettyChars, indentChars]
        omega
  · intro x xs ind hs
    cases xs with
    | nil =>
      have hsz : sizeOf x < n := by
        have h1 : sizeOf ([] : List Json) = 1 := by simp
        omega
      have hV := (IH (sizeOf x) hsz).1 x ind le_rfl
      have hcEq : costE x [] = 1 + costV x := by simp [costE]
      have hlen : (prettyChars ind x).length ≤ (prettyElems ind x []).length := by
        simp [prettyElems, indentChars]
      omega
    | cons y ys =>
      have hys : sizeOf (y :: ys) = 1 + sizeOf y + sizeOf ys := by simp
      have hszx : sizeOf x < n := by omega
      have hszy : sizeOf y + sizeOf ys < n := by
        have h1 : 1 ≤ sizeOf x := by
          cases x <;> simp <;> omega
        omega
      have hV := (IH (sizeOf x) hszx).1 x ind le_rfl
      have hE := (IH (sizeOf y + sizeOf ys) hszy).2.1 y ys ind le_rfl
      have hcEq : costE x (y :: ys) = 1 + max (costV x) (costE y ys) := by simp [costE]
      have hlen : (prettyChars ind x).length + (prettyElems ind y ys).length + 2
          ≤ (prettyElems ind x (y :: ys)).length := by
        simp [prettyElems, indentChars]
        omega
      omega
  · intro k v fs ind hs
    cases fs with
    | nil =>
      have hsz : sizeOf v < n := by
        have h1 : sizeOf ([] : List (String × Json)) = 1 := by simp
        omega
      have hV := (IH (sizeOf v) hsz).1 v ind le_rfl
      have hcEq : costM (k, v) [] = 1 + costV v := by simp [costM]
      have hlen : (prettyChars ind v).length ≤ (prettyMembers ind (k, v) []).length := by
        simp [prettyMembers, indentChars]
        omega
      omega
    | cons f fs' =>
      obtain ⟨k', v'⟩ := f
      have hfs : sizeOf ((k', v') :: fs') = 1 + (1 + sizeOf k' + sizeOf v') + sizeOf fs' := by
        simp
      have hszv : sizeOf v < n := by omega
      have hszf : sizeOf v' + sizeOf fs' < n := by
        have h1 : 1 ≤ sizeOf v := by
          cases v <;> simp <;> omega
        omega
      have hV := (IH (sizeOf v) hszv).1 v ind le_rfl
      have hM := (IH (sizeOf v' + sizeOf fs') hszf).2.2 k' v' fs' ind le_rfl
      have hcEq : costM (k, v) ((k', v') :: fs')
          = 1 + max (costV v) (costM (k', v') fs') := by simp [costM]
      have hlen : (prettyChars ind v).length + (prettyMembers ind (k', v') fs').length + 2
          ≤ (prettyMembers ind (k, v) ((k', v') :: fs')).length := by
        simp [prettyMembers, indentChars]
        omega
      omega

/-- Round trip: parsing a `JSON.stringify(·, null, 2)` serialization recovers
the value (for values whose strings are in the model, see `strOk`). -/
theorem parseJson_stringifyDB (v : Json) (h : strOk v = true) :
    parseJson (stringifyDB v) = some v := by
  have hcost : costV v ≤ (prettyChars 0 v).length :=
    (cost_le_len (sizeOf v)).1 v 0 le_rfl
  have hp := (parse_pretty_master ((prettyChars 0 v).length + 1)).1 v 0 [] h (by omega) rfl
  rw [List.append_nil] at hp
  have hlen : (stringifyDB v).length = (prettyChars 0 v).length := rfl
  have hdata : (stringifyDB v).data = prettyChars 0 v := rfl
  rw [parseJson, hlen, hdata, hp]
  simp [skipWs]

end CloudPDF

namespace CloudPDF

/-! ## The metadata store (src/server.js lines 38-68)

The DB file content is `Option String` (`none` = file absent). Every helper
performs the full load-parse-modify-serialize-write cycle of the source. -/

/-- JavaScript truthiness of a property-access result (`none` = undefined). -/
def truthy : Option Json → Bool
  | none => false
  | some .null => false
  | some (.bool b) => b
  | some (.num n) => n ≠ 0
  | some (.str s) => s ≠ ""
  | some (.arr _) => true
  | some (.obj _) => true

/-- Property access `v.k` (`none` = undefined; objects have unique keys in
JS, so first-match lookup is exact). -/
def getField : Json → String → Option Json
  | .obj fs, k => fs.lookup k
  | _, _ => none

/-- Property assignment `v.k = x`: updates in place if the key exists, else
appends. On a JS primitive the assignment is silently ignored (non-strict
mode, as this module is). -/
def setField : Json → String → Json → Json
  | .obj fs, k, x =>
    if (fs.lookup k).isSome then
      .obj (fs.map (fun kv => if kv.1 = k then (k, x) else kv))
    else .obj (fs ++ [(k, x)])
  | v, _, _ => v

/-- `db.items || []` as the store helpers use it: the items array when
present, `[]` when the field is absent or falsy. (A truthy non-array
`items` would make the JS array methods throw; no save below produces
such a store, and the theorems hypothesise save-produced content.) -/
def itemsOr (db : Json) : List Json :=
  match getField db "items" with
  | some (.arr xs) => xs
  | _ => []

/-- `it.id === id` — strict equality of the `id` property with the string
route parameter: true exactly when `id` is a string property of that value. -/
def idMatches (it : Json) (id : String) : Bool :=
  match getField it "id" with
  | some (.str s) => s = id
  | _ => false

/-- `loadDB` (line 38): read and parse the DB file; the catch returns the
empty record set on a missing file or a parse error. -/
def loadDB : Option String → Json
  | none => .obj [("items", .arr [])]
  | some s =>
    match parseJson s with
    | some v => v
    | none => .obj [("items", .arr [])]

/-- `saveDB` (line 46): overwrite the DB file with
`JSON.stringify(db, null, 2)`. -/
def saveDB (db : Json) : Option String := some (stringifyDB db)

/-- `addItem` (line 49): load, default `items`, push, save. -/
def addItem (item : Json) (content : Option String) : Option String :=
  let db := loadDB content
  saveDB (setField db "items" (.arr (itemsOr db ++ [item])))

/-- The own enumerable fields a value contributes to an object spread
(a primitive contributes none). -/
def ownFields : Json → List (String × Json)
  | .obj fs => fs
  | _ => []

/-- One spread step: the pair keeps its key, overridden by `bfs` when that
has the key. -/
def spreadFun (bfs : List (String × Json)) (kv : String × Json) : String × Json :=
  match bfs.lookup kv.1 with
  | some x => (kv.1, x)
  | none => kv

/-- `{...it, ...patch}` — JS object spread: keys of `it` in order, each
overridden by `patch` when it has the key, then the new keys of `patch`
in their order. -/
def spread2 (a b : Json) : Json :=
  .obj ((ownFields a).map (spreadFun (ownFields b))
    ++ (ownFields b).filter (fun kv => ((ownFields a).lookup kv.1).isNone))

/-- `updateItem` (line 55): shallow-merge the patch over every record whose
`id` matches; save the mapped list. -/
def updateItem (id : String) (patch : Json) (content : Option String) : Option String :=
  let db := loadDB content
  saveDB (setField db "items"
    (.arr ((itemsOr db).map (fun it => if idMatches it id then spread2 it patch else it))))

/-- `removeItem` (line 60): keep exactly the records whose `id` does not match. -/
def removeItem (id : String) (content : Option String) : Option String :=
  let db := loadDB content
  saveDB (setField db "items" (.arr ((itemsOr db).filter (fun it => ! idMatches it id))))

/-- `findItem` (line 65): first record whose `id` matches. -/
def findItem (id : String) (content : Option String) : Option Json :=
  (itemsOr (loadDB content)).find? (fun it => idMatches it id)

/-! ## Generated ids and path helpers -/

/-- `Date.now().toString(36) + '-' + Math.random().toString(36).slice(2,8)`
(lines 76 and 224): `now` is the epoch-millisecond timestamp, `rand` models
the sliced base-36 digit string of the random draw (its characters are
base-36 digits, in particular never `-`). -/
def genId (now : Nat) (rand : String) : String :=
  ⟨natToDigits 36 now⟩ ++ "-" ++ rand

/-- `path.extname` of a separator-free name: the suffix from the last dot;
`""` when there is no dot or only a leading one (dotfiles). -/
def extnameChars (l : List Char) : List Char :=
  let r := l.reverse
  let pre := r.takeWhile (fun c => c ≠ '.')
  if pre.length = r.length then []
  else if pre.length + 1 = r.length then []
  else '.' :: pre.reverse

/-- `path.extname` on strings. -/
def extname (s : String) : String := ⟨extnameChars s.data⟩

/-- `path.parse(p).name`: the name with its `extname` stripped. -/
def parseName (s : String) : String :=
  ⟨s.data.take (s.data.length - (extnameChars s.data).length)⟩

/-- `path.join(a, b)` for one plain relative segment. -/
def pathJoin (a b : String) : String := a ++ "/" ++ b

/-- `path.basename`: the part after the last `/`. -/
def basename (s : String) : String := ⟨(s.data.reverse.takeWhile (fun c => c ≠ '/')).reverse⟩

/-- Multer's `filename` callback (lines 74-78): generated id plus the
original extension, defaulting to `.pdf` (`||` on the extname string). -/
def uploadFilename (now : Nat) (rand : String) (originalname : String) : String :=
  genId now rand ++ (if extname originalname = "" then ".pdf" else extname originalname)

/-! ## Server state, configuration, and the route handlers -/

/-- Environment configuration (lines 28-32); `BOT_TOKEN = ""` is the unset
credential. -/
structure Config where
  BOT_TOKEN : String
  STORAGE_DIR : String
  CACHE_TG_FILES : Bool

/-- Machine state a request can observe and mutate: the DB file content and
the set of file paths existing on disk. -/
structure SysState where
  dbFile : Option String
  files : List String

/-- The Telegram platform as response oracles: the JSON body `getFile`
answers for a given `file_id` value, and whether/how the file download
responds. -/
structure TgEnv where
  getFileResp : Option Json → Json
  downloadOk : String → Bool
  downloadStatus : String → Nat

/-- Side effects of a request, in execution order. -/
inductive Effect where
  | tgGetFile (fileId : Option Json)
  | tgDownload (filePath : String)
  | fsWrite (path : String)
  | dbWrite (content : Option String)
  | streamFile (path : String)

/-- Response bodies: JSON, plain text, a streamed PDF, or the HTML page of
Express's default error handler. -/
inductive Body where
  | json (v : Json)
  | text (s : String)
  | pdfStream (path : String)
  | htmlError (msg : String)

structure Response where
  status : Nat
  body : Body

/-- JS template-literal coercion of the `file_path` value (always a string
in practice; array `join` edge cases for nested null are not JS-exact). -/
def jsStringOf : Json → String
  | .str s => s
  | .num n => ⟨intChars n⟩
  | .bool true => "true"
  | .bool false => "false"
  | .null => "null"
  | .arr _ => ""
  | .obj _ => "[object Object]"

/-- `item.localPath && fs.existsSync(item.localPath)` (lines 125 and 204):
the existing-local-file condition; `existsSync` is membership in `files`
and returns false for non-string arguments. -/
def hasLocalFile (item : Json) (files : List String) : Option String :=
  match getField item "localPath" with
  | some (.str s) => if s ≠ "" ∧ files.contains s then some s else none
  | _ => none

/-- `item.source === 'telegram'`. -/
def isTelegramSource (item : Json) : Bool :=
  match getField item "source" with
  | some (.str s) => s = "telegram"
  | _ => false

/-- `gfJson.ok && gfJson.result && gfJson.result.file_path` (line 136): the
usable `file_path` value, when the lookup response passes the check. -/
def gfFilePath (gfJson : Json) : Option Json :=
  match getField gfJson "result" with
  | some r =>
    if truthy (getField gfJson "ok") && truthy (some r) && truthy (getField r "file_path")
    then getField r "file_path" else none
  | none => none

/-- `GET /api/file/:id` (lines 118-168) as a state transformer; `now` models
`Date.now()` during the request. -/
def fileHandler (cfg : Config) (tg : TgEnv) (now : Nat) (st : SysState) (id : String) :
    Response × SysState × List Effect :=
  match findItem id st.dbFile with
  | none => (⟨404, .json (.obj [("error", .str "Not found")])⟩, st, [])
  | some item =>
    match hasLocalFile item st.files with
    | some p => (⟨200, .pdfStream p⟩, st, [.streamFile p])
    | none =>
      if isTelegramSource item then
        if cfg.BOT_TOKEN = "" then
          (⟨500, .json (.obj [("error", .str "Server missing BOT_TOKEN for Telegram")])⟩,
            st, [])
        else
          let fid := getField item "file_id"
          let gfJson := tg.getFileResp fid
          match gfFilePath gfJson with
          | none =>
            (⟨502, .json (.obj [("error", .str "Telegram getFile failed"), ("info", gfJson)])⟩,
              st, [.tgGetFile fid])
          | some fp =>
            let filePath := jsStringOf fp
            if tg.downloadOk filePath then
              let cachePath := pathJoin cfg.STORAGE_DIR (id ++ "-" ++ basename filePath)
              let newContent := updateItem id
                (.obj [("localPath", .str cachePath), ("cachedAt", .num now)]) st.dbFile
              (⟨200, .pdfStream cachePath⟩,
                ⟨newContent, cachePath :: st.files⟩,
                [.tgGetFile fid, .tgDownload filePath, .fsWrite cachePath,
                  .dbWrite newContent, .streamFile cachePath])
            else
              (⟨502, .json (.obj [("error", .str "Failed to download from Telegram"),
                  ("status", .num (tg.downloadStatus filePath))])⟩,
                st, [.tgGetFile fid, .tgDownload filePath])
      else
        (⟨501, .json (.obj [("error", .str "Source not implemented")])⟩, st, [])

/-- A multipart file part as multer presents it. -/
structure FilePart where
  originalname : String
  mimetype : String
  size : Nat

/-- A `POST /upload` request: the optional file part and the optional text
fields of the form body. -/
structure UploadReq where
  file : Option FilePart
  title : Option String
  category : Option String

/-- `req.body.x || dflt` for a text field (absent and `""` are falsy). -/
def strFieldOr (fld : Option String) (dflt : String) : String :=
  match fld with
  | some s => if s ≠ "" then s else dflt
  | none => dflt

/-- `POST /upload` (multer config lines 71-85, handler lines 171-194).
This app registers no error-handling middleware, so a multer rejection
(non-PDF `fileFilter` error, or the 200MB `fileSize` limit) propagates to
Express's default error handler: an HTML response with status 500 (the
`Error` carries no status code). A request without a file part reaches the
handler and gets the 400 JSON error. -/
def uploadHandler (cfg : Config) (now : Nat) (rand : String) (req : UploadReq)
    (st : SysState) : Response × SysState :=
  match req.file with
  | none => (⟨400, .json (.obj [("error", .str "No file")])⟩, st)
  | some f =>
    if f.mimetype ≠ "application/pdf" then
      (⟨500, .htmlError "Only PDFs allowed"⟩, st)
    else if f.size > 200 * 1024 * 1024 then
      (⟨500, .htmlError "File too large"⟩, st)
    else
      let fname := uploadFilename now rand f.originalname
      let fpath := pathJoin cfg.STORAGE_DIR fname
      let id := parseName fname
      let item : Json := .obj [("id", .str id), ("source", .str "upload"),
        ("name", .str f.originalname),
        ("title", .str (strFieldOr req.title f.originalname)),
        ("category", .str (strFieldOr req.category "Uncategorized")),
        ("date", .num now), ("size", .num f.size),
        ("localPath", .str fpath)]
      (⟨200, .json (.obj [("ok", .bool true), ("id", .str id)])⟩,
        ⟨addItem item st.dbFile, fpath :: st.files⟩)

/-- `DELETE /api/delete/:id` (lines 197-212); `unlinkFails` models an
`fs.unlinkSync` throw, which the handler catches and logs. -/
def deleteHandler (id : String) (unlinkFails : Bool) (st : SysState) :
    Response × SysState :=
  match findItem id st.dbFile with
  | none => (⟨404, .json (.obj [("error", .str "Not found")])⟩, st)
  | some item =>
    let files' :=
      match hasLocalFile item st.files with
      | some p => if unlinkFails then st.files else st.files.filter (fun q => q ≠ p)
      | none => st.files
    (⟨200, .json (.obj [("ok", .bool true)])⟩, ⟨removeItem id st.dbFile, files'⟩)

/-- The record a webhook document produces (lines 225-234). A JS property
set to `undefined` is dropped by `JSON.stringify`, so the `file_id` pair is
omitted exactly when the document carries none. -/
def webhookItem (now : Nat) (id : String) (doc : Json) : Json :=
  .obj ([("id", .str id), ("source", .str "telegram")]
    ++ (match getField doc "file_id" with | some v => [("file_id", v)] | none => [])
    ++ [("name",
          if truthy (getField doc "file_name") then (getField doc "file_name").getD .null
          else .str "telegram_file.pdf"),
        ("title",
          if truthy (getField doc "file_name") then (getField doc "file_name").getD .null
          else .str ("Telegram " ++ id)),
        ("category", .str "Telegram"),
        ("date", .num now),
        ("size",
          if truthy (getField doc "file_size") then (getField doc "file_size").getD .null
          else .null)])

/-- `update.message || update.channel_post || null` (line 218): the message
value the webhook handler works on (`none` = null). -/
def msgOf (update : Json) : Option Json :=
  if truthy (getField update "message") then getField update "message"
  else if truthy (getField update "channel_post") then getField update "channel_post"
  else none

/-- `POST /webhook` (lines 215-265). -/
def webhookHandler (cfg : Config) (tg : TgEnv) (now : Nat) (rand : String)
    (update : Json) (st : SysState) : Response × SysState × List Effect :=
  match msgOf update with
  | none => (⟨200, .text "no message"⟩, st, [])
  | some m =>
    if truthy (getField m "document") then
      let doc := (getField m "document").getD .null
      let id := genId now rand
      let item := webhookItem now id doc
      let c1 := addItem item st.dbFile
      let st1 : SysState := ⟨c1, st.files⟩
      if cfg.CACHE_TG_FILES ∧ cfg.BOT_TOKEN ≠ "" then
        let fid := getField doc "file_id"
        let gfJson := tg.getFileResp fid
        match gfFilePath gfJson with
        | none =>
          (⟨200, .json (.obj [("ok", .bool true)])⟩, st1, [.dbWrite c1, .tgGetFile fid])
        | some fp =>
          let filePath := jsStringOf fp
          if tg.downloadOk filePath then
            let cachePath := pathJoin cfg.STORAGE_DIR (id ++ "-" ++ basename filePath)
            let c2 := updateItem id
              (.obj [("localPath", .str cachePath), ("cachedAt", .num now)]) c1
            (⟨200, .json (.obj [("ok", .bool true)])⟩, ⟨c2, cachePath :: st.files⟩,
              [.dbWrite c1, .tgGetFile fid, .tgDownload filePath, .fsWrite cachePath,
                .dbWrite c2])
          else
            (⟨200, .json (.obj [("ok", .bool true)])⟩, st1,
              [.dbWrite c1, .tgGetFile fid, .tgDownload filePath])
      else (⟨200, .json (.obj [("ok", .bool true)])⟩, st1, [.dbWrite c1])
    else (⟨200, .json (.obj [("ok", .bool true)])⟩, st, [])

end CloudPDF

namespace CloudPDF

/-! ## Store-level lemmas -/

/-- Loading straight after saving recovers the record set. -/
theorem loadDB_saveDB {db : Json} (h : strOk db = true) : loadDB (saveDB db) = db := by
  simp [loadDB, saveDB, parseJson_stringifyDB db h]

theorem strOkList_mem {its : List Json} (h : strOkList its = true) {it : Json}
    (hm : it ∈ its) : strOk it = true := by
  induction its with
  | nil => cases hm
  | cons x xs ih =>
    obtain ⟨h1, h2⟩ := strOkList_cons h
    rcases List.mem_cons.mp hm with rfl | hm
    · exact h1
    · exact ih h2 hm

theorem strOkList_append {l₁ l₂ : List Json} (h1 : strOkList l₁ = true)
    (h2 : strOkList l₂ = true) : strOkList (l₁ ++ l₂) = true := by
  induction l₁ with
  | nil => simpa using h2
  | cons x xs ih =>
    obtain ⟨hx, hxs⟩ := strOkList_cons h1
    simp only [List.cons_append, strOkList, Bool.and_eq_true]
    exact ⟨hx, ih hxs⟩

theorem strOkList_filter {its : List Json} (h : strOkList its = true) (p : Json → Bool) :
    strOkList (its.filter p) = true := by
  induction its with
  | nil => simpa using h
  | cons x xs ih =>
    obtain ⟨hx, hxs⟩ := strOkList_cons h
    by_cases hp : p x
    · simp only [List.filter_cons, hp, if_true, strOkList, Bool.and_eq_true]
      exact ⟨hx, ih hxs⟩
    · simp only [List.filter_cons, hp, Bool.false_eq_true, if_false]
      exact ih hxs

theorem strOkList_map {its : List Json} (h : strOkList its = true) (g : Json → Json)
    (hg : ∀ it ∈ its, strOk (g it) = true) : strOkList (its.map g) = true := by
  induction its with
  | nil => simpa using h
  | cons x xs ih =>
    obtain ⟨hx, hxs⟩ := strOkList_cons h
    simp only [List.map_cons, strOkList, Bool.and_eq_true]
    exact ⟨hg x (by simp), ih hxs (fun it hm => hg it (by simp [hm]))⟩

theorem strOkFields_lookup {fs : List (String × Json)} (h : strOkFields fs = true)
    {k : String} {v : Json} (hl : fs.lookup k = some v) : strOk v = true := by
  induction fs with
  | nil => cases hl
  | cons f fs' ih =>
    obtain ⟨k', v'⟩ := f
    obtain ⟨hk', hv', hfs'⟩ := strOkFields_cons h
    rw [List.lookup_cons] at hl
    by_cases he : k = k'
    · simp only [he, beq_self_eq_true, if_true] at hl
      injection hl with h2
      rw [← h2]
      exact hv'
    · have hne : (k == k') = false := by simpa using he
      rw [hne] at hl
      exact ih hfs' hl

theorem strOkFields_append {l₁ l₂ : List (String × Json)} (h1 : strOkFields l₁ = true)
    (h2 : strOkFields l₂ = true) : strOkFields (l₁ ++ l₂) = true := by
  induction l₁ with
  | nil => simpa using h2
  | cons f fs ih =>
    obtain ⟨k, v⟩ := f
    obtain ⟨hk, hv, hfs⟩ := strOkFields_cons h1
    simp only [List.cons_append, strOkFields, Bool.and_eq_true]
    exact ⟨⟨hk, hv⟩, ih hfs⟩

theorem strOkFields_filter {fs : List (String × Json)} (h : strOkFields fs = true)
    (p : String × Json → Bool) : strOkFields (fs.filter p) = true := by
  induction fs with
  | nil => simpa using h
  | cons f fs' ih =>
    obtain ⟨k, v⟩ := f
    obtain ⟨hk, hv, hfs'⟩ := strOkFields_cons h
    by_cases hp : p (k, v)
    · simp only [List.filter_cons, hp, if_true, strOkFields, Bool.and_eq_true]
      exact ⟨⟨hk, hv⟩, ih hfs'⟩
    · simp only [List.filter_cons, hp, Bool.false_eq_true, if_false]
      exact ih hfs'

theorem strOkFields_spread_map {bfs : List (String × Json)} (hb : strOkFields bfs = true)
    {afs : List (String × Json)} (ha : strOkFields afs = true) :
    strOkFields (afs.map (spreadFun bfs)) = true := by
  induction afs with
  | nil => rfl
  | cons f fs ih =>
    obtain ⟨k, v⟩ := f
    obtain ⟨hk, hv, hfs⟩ := strOkFields_cons ha
    simp only [List.map_cons, spreadFun]
    cases hbl : bfs.lookup k with
    | none =>
      simp only [hbl, strOkFields, Bool.and_eq_true]
      exact ⟨⟨hk, hv⟩, ih hfs⟩
    | some x =>
      have hx := strOkFields_lookup hb hbl
      simp only [hbl, strOkFields, Bool.and_eq_true]
      exact ⟨⟨hk, hx⟩, ih hfs⟩

/-- `spread2` preserves the string model. -/
theorem strOk_spread2 {a b : Json} (ha : strOk a = true) (hb : strOk b = true) :
    strOk (spread2 a b) = true := by
  have hfa : strOkFields (ownFields a) = true := by
    cases a <;> first
      | rfl
      | simpa [ownFields, strOk] using ha
  have hfb : strOkFields (ownFields b) = true := by
    cases b <;> first
      | rfl
      | simpa [ownFields, strOk] using hb
  rw [show strOk (spread2 a b) = strOkFields ((ownFields a).map (spreadFun (ownFields b))
    ++ (ownFields b).filter (fun kv => ((ownFields a).lookup kv.1).isNone)) from by
    simp [spread2, strOk]]
  exact strOkFields_append (strOkFields_spread_map hfb hfa) (strOkFields_filter hfb _)

theorem strOkFields_setmap {fs : List (String × Json)} (h : strOkFields fs = true)
    {k : String} {v : Json} (hk : strOkStr k = true) (hv : strOk v = true) :
    strOkFields (fs.map (fun kv => if kv.1 = k then (k, v) else kv)) = true := by
  induction fs with
  | nil => rfl
  | cons f fs' ih =>
    obtain ⟨k', v'⟩ := f
    obtain ⟨hk', hv', hfs'⟩ := strOkFields_cons h
    by_cases he : k' = k
    · rw [List.map_cons, if_pos (show (k', v').1 = k from he)]
      simp only [strOkFields, Bool.and_eq_true]
      exact ⟨⟨hk, hv⟩, ih hfs'⟩
    · rw [List.map_cons, if_neg (show ¬ (k', v').1 = k from he)]
      simp only [strOkFields, Bool.and_eq_true]
      exact ⟨⟨hk', hv'⟩, ih hfs'⟩

/-- `setField` preserves the string model. -/
theorem strOk_setField {db : Json} (h : strOk db = true) {k : String} {v : Json}
    (hk : strOkStr k = true) (hv : strOk v = true) : strOk (setField db k v) = true := by
  cases db with
  | obj fs =>
    have hfs : strOkFields fs = true := by simpa [strOk] using h
    simp only [setField]
    by_cases hl : (fs.lookup k).isSome
    · rw [if_pos hl]
      have := strOkFields_setmap hfs hk hv
      simpa [strOk] using this
    · rw [if_neg hl]
      have hsingle : strOkFields [(k, v)] = true := by
        simp [strOkFields, hk, hv]
      have := strOkFields_append hfs hsingle
      simpa [strOk] using this
  | null => exact h
  | bool b => exact h
  | num n => exact h
  | str s => exact h
  | arr xs => exact h

end CloudPDF

namespace CloudPDF

/-! ## Lookup and spread lemmas -/

theorem getField_eq_lookup (a : Json) (k : String) :
    getField a k = (ownFields a).lookup k := by
  cases a <;> rfl

theorem lookup_append_some {l₁ l₂ : List (String × Json)} {k : String} {x : Json}
    (h : l₁.lookup k = some x) : (l₁ ++ l₂).lookup k = some x := by
  induction l₁ with
  | nil => cases h
  | cons f fs ih =>
    obtain ⟨k', v'⟩ := f
    by_cases he : (k == k') = true
    · simp only [List.cons_append, List.lookup, he] at h ⊢
      exact h
    · have hne : (k == k') = false := by simpa using he
      simp only [List.cons_append, List.lookup, hne] at h ⊢
      exact ih h

theorem lookup_append_none {l₁ l₂ : List (String × Json)} {k : String}
    (h : l₁.lookup k = none) : (l₁ ++ l₂).lookup k = l₂.lookup k := by
  induction l₁ with
  | nil => rfl
  | cons f fs ih =>
    obtain ⟨k', v'⟩ := f
    by_cases he : (k == k') = true
    · simp only [List.cons_append, List.lookup, he] at h
      cases h
    · have hne : (k == k') = false := by simpa using he
      simp only [List.cons_append, List.lookup, hne] at h ⊢
      exact ih h

theorem lookup_spreadmap (bfs : List (String × Json)) (k : String) :
    ∀ afs : List (String × Json),
    (afs.map (spreadFun bfs)).lookup k
      = match afs.lookup k with
        | none => none
        | some v =>
          match bfs.lookup k with
          | some x => some x
          | none => some v := by
  intro afs
  induction afs with
  | nil => rfl
  | cons f fs ih =>
    obtain ⟨k', v'⟩ := f
    rw [List.map_cons]
    by_cases he : (k == k') = true
    · have heq : k = k' := by simpa using he
      subst heq
      cases hbl : bfs.lookup k with
      | none =>
        rw [show spreadFun bfs (k, v') = (k, v') from by simp [spreadFun, hbl]]
        simp [List.lookup, hbl]
      | some x =>
        rw [show spreadFun bfs (k, v') = (k, x) from by simp [spreadFun, hbl]]
        simp [List.lookup, hbl]
    · have hne : (k == k') = false := by simpa using he
      cases hbl : bfs.lookup k' with
      | none =>
        rw [show spreadFun bfs (k', v') = (k', v') from by simp [spreadFun, hbl]]
        simp only [List.lookup, hne]
        exact ih
      | some x =>
        rw [show spreadFun bfs (k', v') = (k', x) from by simp [spreadFun, hbl]]
        simp only [List.lookup, hne]
        exact ih

theorem lookup_filter_keep {bfs : List (String × Json)} {k : String}
    {p : String × Json → Bool} (hp : ∀ v, p (k, v) = true) :
    (bfs.filter p).lookup k = bfs.lookup k := by
  induction bfs with
  | nil => rfl
  | cons f fs ih =>
    obtain ⟨k', v'⟩ := f
    by_cases he : (k == k') = true
    · have heq : k = k' := by simpa using he
      subst heq
      rw [List.filter_cons, hp v', if_pos rfl]
      simp [List.lookup]
    · have hne : (k == k') = false := by simpa using he
      rw [List.filter_cons]
      by_cases hkeep : p (k', v') = true
      · rw [hkeep, if_pos rfl]
        simp only [List.lookup, hne]
        exact ih
      · have hkf : p (k', v') = false := by simpa using hkeep
        rw [hkf, if_neg (by simp)]
        rw [ih]
        simp only [List.lookup, hne]

/-- Spread lookup: a key of the patch takes the patch's value, any other key
keeps the base's value. -/
theorem getField_spread2 (a b : Json) (k : String) :
    getField (spread2 a b) k
      = match getField b k with
        | some x => some x
        | none => getField a k := by
  rw [getField_eq_lookup b, getField_eq_lookup a]
  rw [show getField (spread2 a b) k
      = ((ownFields a).map (spreadFun (ownFields b))
          ++ (ownFields b).filter
            (fun kv => ((ownFields a).lookup kv.1).isNone)).lookup k from rfl]
  cases hal : (ownFields a).lookup k with
  | some v =>
    have hm := lookup_spreadmap (ownFields b) k (ownFields a)
    rw [hal] at hm
    cases hbl : (ownFields b).lookup k with
    | some x =>
      rw [hbl] at hm
      rw [lookup_append_some hm]
    | none =>
      rw [hbl] at hm
      rw [lookup_append_some hm]
  | none =>
    have hm := lookup_spreadmap (ownFields b) k (ownFields a)
    rw [hal] at hm
    rw [lookup_append_none hm]
    rw [lookup_filter_keep (fun v => by rw [hal]; rfl)]
    cases hbl : (ownFields b).lookup k <;> simp [hal]

/-- A patch without an `id` key leaves `id`-matching unchanged. -/
theorem idMatches_spread2 {patch : Json} (h : getField patch "id" = none)
    (it : Json) (id : String) : idMatches (spread2 it patch) id = idMatches it id := by
  rw [idMatches, getField_spread2, h, idMatches]

/-- Updating by `id` preserves the position of the first match: `find?` on
the mapped list returns the merged first match. -/
theorem find?_map_update (id : String) (patch : Json)
    (hp : getField patch "id" = none) :
    ∀ (its : List Json) (item : Json),
    its.find? (fun it => idMatches it id) = some item →
    (its.map (fun it => if idMatches it id then spread2 it patch else it)).find?
      (fun it => idMatches it id) = some (spread2 item patch) := by
  intro its
  induction its with
  | nil => intro item h; cases h
  | cons x xs ih =>
    intro item h
    by_cases hx : idMatches x id = true
    · simp only [List.find?, hx] at h
      injection h with h2
      subst h2
      rw [List.map_cons, if_pos hx]
      have hm : idMatches (spread2 x patch) id = true := by
        rw [idMatches_spread2 hp]
        exact hx
      simp only [List.find?, hm]
    · have hxf : idMatches x id = false := by simpa using hx
      simp only [List.find?, hxf] at h
      rw [List.map_cons, if_neg hx]
      simp only [List.find?, hxf]
      exact ih item h

/-- With no match, the update map is the identity. -/
theorem map_update_id (id : String) (patch : Json) (its : List Json)
    (h : ∀ it ∈ its, idMatches it id = false) :
    its.map (fun it => if idMatches it id then spread2 it patch else it) = its := by
  induction its with
  | nil => rfl
  | cons x xs ih =>
    rw [List.map_cons, if_neg (by simp [h x (by simp)]), ih (fun it hm => h it (by simp [hm]))]

theorem itemsOr_obj (its : List Json) :
    itemsOr (Json.obj [("items", Json.arr its)]) = its := by
  simp [itemsOr, getField, List.lookup]

theorem setField_items_obj (its : List Json) (v : Json) :
    setField (Json.obj [("items", Json.arr its)]) "items" v = Json.obj [("items", v)] := by
  simp [setField, List.lookup]

end CloudPDF

namespace CloudPDF

/-! ## Canonical stores

Every content the program itself writes has the shape
`{ "items": [ ... ] }`; `storeOf its` is that record set. -/

/-- The record set `{ items: its }`. -/
def storeOf (its : List Json) : Json := Json.obj [("items", Json.arr its)]

theorem itemsOr_storeOf (its : List Json) : itemsOr (storeOf its) = its :=
  itemsOr_obj its

theorem setField_items_storeOf (its : List Json) (v : Json) :
    setField (storeOf its) "items" v = Json.obj [("items", v)] :=
  setField_items_obj its v

theorem strOk_storeOf {its : List Json} (h : strOkList its = true) :
    strOk (storeOf its) = true := by
  simp only [storeOf, strOk, strOkFields, Bool.and_eq_true]
  exact ⟨⟨by decide, by simpa [strOk] using h⟩, trivial⟩

theorem loadDB_storeOf {its : List Json} (h : strOkList its = true) :
    loadDB (saveDB (storeOf its)) = storeOf its :=
  loadDB_saveDB (strOk_storeOf h)

theorem addItem_canonical (item : Json) {its : List Json} (h : strOkList its = true) :
    addItem item (saveDB (storeOf its)) = saveDB (storeOf (its ++ [item])) := by
  rw [addItem, loadDB_storeOf h, itemsOr_storeOf, setField_items_storeOf]
  rfl

theorem addItem_none (item : Json) : addItem item none = saveDB (storeOf [item]) := rfl

theorem updateItem_canonical (id : String) (patch : Json) {its : List Json}
    (h : strOkList its = true) :
    updateItem id patch (saveDB (storeOf its))
      = saveDB (storeOf (its.map
          (fun it => if idMatches it id then spread2 it patch else it))) := by
  rw [updateItem, loadDB_storeOf h, itemsOr_storeOf, setField_items_storeOf]
  rfl

theorem removeItem_canonical (id : String) {its : List Json} (h : strOkList its = true) :
    removeItem id (saveDB (storeOf its))
      = saveDB (storeOf (its.filter (fun it => ! idMatches it id))) := by
  rw [removeItem, loadDB_storeOf h, itemsOr_storeOf, setField_items_storeOf]
  rfl

theorem findItem_canonical (id : String) {its : List Json} (h : strOkList its = true) :
    findItem id (saveDB (storeOf its)) = its.find? (fun it => idMatches it id) := by
  rw [findItem, loadDB_storeOf h, itemsOr_storeOf]

/-! ## Claims -/

/-- **C7**: for every persisted store content produced by `save`, `load`
followed by `save` writes back exactly the same content (strings within the
model, see `strOk`). -/
theorem C7_save_load_save (db : Json) (h : strOk db = true) :
    saveDB (loadDB (saveDB db)) = saveDB db := by
  rw [loadDB_saveDB h]

theorem C7_witness :
    strOk (Json.obj [("items", Json.arr [Json.obj [("id", Json.str "a")]])]) = true
    ∧ saveDB (loadDB (saveDB (Json.obj [("items", Json.arr [Json.obj [("id", Json.str "a")]])])))
      = saveDB (Json.obj [("items", Json.arr [Json.obj [("id", Json.str "a")]])]) :=
  ⟨by decide, C7_save_load_save _ (by decide)⟩

/-- **C8**: `load` returns the empty record set (an object with an empty
items list) when the DB file is absent or its content does not parse. -/
theorem C8_loadDB_lenient :
    loadDB none = Json.obj [("items", Json.arr [])]
    ∧ ∀ s : String, parseJson s = none →
        loadDB (some s) = Json.obj [("items", Json.arr [])] := by
  refine ⟨rfl, ?_⟩
  intro s h
  simp [loadDB, h]

theorem C8_witness :
    parseJson (⟨['g', 'a', 'r', 'b', 'a', 'g', 'e']⟩ : String) = none
    ∧ loadDB (some (⟨['g', 'a', 'r', 'b', 'a', 'g', 'e']⟩ : String))
        = Json.obj [("items", Json.arr [])] := by
  have h : parseJson (⟨['g', 'a', 'r', 'b', 'a', 'g', 'e']⟩ : String) = none := by
    simp [parseJson, String.length, parseVal, parseValAt, skipWs, isWsChar, dropLit]
  exact ⟨h, C8_loadDB_lenient.2 _ h⟩

/-- **C4** counterexample: on the absent-file store state — a state in which
no record matches any id — `update` does not leave the persisted content
unchanged: it creates the file with the canonical empty record set. -/
theorem C4_counterexample : updateItem "a" (Json.obj []) none ≠ none := by
  simp [updateItem, saveDB]

/-- **C4** (amended): on store content produced by `save`, `update` replaces
each record whose id matches with the JS spread merge of the record and the
patch, leaves every other record unchanged, and when no record matches it
leaves the persisted content unchanged; on absent or unparseable content it
instead rewrites the canonical form of the parsed (empty) record set. -/
theorem C4_updateItem (its : List Json) (id : String) (patch : Json)
    (h : strOkList its = true) :
    updateItem id patch (saveDB (storeOf its))
      = saveDB (storeOf (its.map
          (fun it => if idMatches it id then spread2 it patch else it)))
    ∧ ((∀ it ∈ its, idMatches it id = false) →
        updateItem id patch (saveDB (storeOf its)) = saveDB (storeOf its)) := by
  refine ⟨updateItem_canonical id patch h, ?_⟩
  intro hnone
  rw [updateItem_canonical id patch h, map_update_id id patch its hnone]

theorem C4_witness :
    strOkList [Json.obj [("id", Json.str "a")]] = true
    ∧ (∀ it ∈ [Json.obj [("id", Json.str "a")]], idMatches it "b" = false)
    ∧ updateItem "b" (Json.obj []) (saveDB (storeOf [Json.obj [("id", Json.str "a")]]))
        = saveDB (storeOf [Json.obj [("id", Json.str "a")]]) :=
  ⟨by decide, by decide,
    (C4_updateItem [Json.obj [("id", Json.str "a")]] "b" (Json.obj []) (by decide)).2
      (by decide)⟩

end CloudPDF

namespace CloudPDF

/-- **C6**: when a record matches the id, DELETE removes the record
unconditionally and answers `{ok:true}` — regardless of `localPath`, of the
file's existence, or of the unlink failing; when the local file exists (and
the unlink does not fail) it is removed too; with no matching record the
status is 404. -/
theorem C6_delete (st : SysState) (id : String) (unlinkFails : Bool) :
    (findItem id st.dbFile = none →
      deleteHandler id unlinkFails st
        = (⟨404, .json (.obj [("error", .str "Not found")])⟩, st))
    ∧ (∀ item, findItem id st.dbFile = some item →
        (deleteHandler id unlinkFails st).1 = ⟨200, .json (.obj [("ok", .bool true)])⟩
        ∧ (deleteHandler id unlinkFails st).2.dbFile = removeItem id st.dbFile
        ∧ (∀ p, hasLocalFile item st.files = some p → unlinkFails = false →
            (deleteHandler id unlinkFails st).2.files = st.files.filter (fun q => q ≠ p))
        ∧ ((hasLocalFile item st.files = none ∨ unlinkFails = true) →
            (deleteHandler id unlinkFails st).2.files = st.files))
    ∧ (∀ its, strOkList its = true → st.dbFile = saveDB (storeOf its) →
        itemsOr (loadDB (removeItem id st.dbFile))
          = its.filter (fun it => ! idMatches it id)) := by
  refine ⟨?_, ?_, ?_⟩
  · intro h
    simp [deleteHandler, h]
  · intro item h
    refine ⟨by simp [deleteHandler, h], by simp [deleteHandler, h], ?_, ?_⟩
    · intro p hp hu
      simp [deleteHandler, h, hp, hu]
    · intro hcase
      rcases hcase with h1 | h1
      · simp [deleteHandler, h, h1]
      · cases hl : hasLocalFile item st.files <;> simp [deleteHandler, h, hl, h1]
  · intro its hok hsd
    rw [hsd, removeItem_canonical id hok, loadDB_storeOf (strOkList_filter hok _),
      itemsOr_storeOf]

theorem C6_witness :
    findItem "a" (saveDB (storeOf [Json.obj [("id", Json.str "a"), ("localPath", Json.str "p")]]))
      = some (Json.obj [("id", Json.str "a"), ("localPath", Json.str "p")])
    ∧ (deleteHandler "a" false
        ⟨saveDB (storeOf [Json.obj [("id", Json.str "a"), ("localPath", Json.str "p")]]), ["p"]⟩).1
      = ⟨200, .json (.obj [("ok", .bool true)])⟩
    ∧ (deleteHandler "a" false
        ⟨saveDB (storeOf [Json.obj [("id", Json.str "a"), ("localPath", Json.str "p")]]), ["p"]⟩).2.files
      = ["p"].filter (fun q => q ≠ "p")
    ∧ itemsOr (loadDB (removeItem "a"
        (saveDB (storeOf [Json.obj [("id", Json.str "a"), ("localPath", Json.str "p")]]))))
      = [] := by
  have hfind : findItem "a"
      (saveDB (storeOf [Json.obj [("id", Json.str "a"), ("localPath", Json.str "p")]]))
      = some (Json.obj [("id", Json.str "a"), ("localPath", Json.str "p")]) := by
    rw [findItem_canonical "a" (by decide)]
    rfl
  have hparts := (C6_delete
    ⟨saveDB (storeOf [Json.obj [("id", Json.str "a"), ("localPath", Json.str "p")]]), ["p"]⟩
    "a" false).2.1 _ hfind
  have hcanon := (C6_delete
    ⟨saveDB (storeOf [Json.obj [("id", Json.str "a"), ("localPath", Json.str "p")]]), ["p"]⟩
    "a" false).2.2 [Json.obj [("id", Json.str "a"), ("localPath", Json.str "p")]]
    (by decide) rfl
  refine ⟨hfind, hparts.1, hparts.2.2.1 "p" (by decide) rfl, ?_⟩

  rw [hcanon]
  rfl

/-- **C10**: a webhook body carrying a (truthy) message or channel post but
no (truthy) document answers 200 `{ok:true}`, performs no effects at all —
in particular no remote calls — and leaves the state (so the persisted
store content) unchanged. -/
theorem C10_webhook_no_document (cfg : Config) (tg : TgEnv) (now : Nat) (rand : String)
    (update : Json) (st : SysState) (m : Json) (hm : msgOf update = some m)
    (hdoc : truthy (getField m "document") = false) :
    webhookHandler cfg tg now rand update st
      = (⟨200, .json (.obj [("ok", .bool true)])⟩, st, []) := by
  simp [webhookHandler, hm, hdoc]

theorem C10_witness :
    msgOf (Json.obj [("message", Json.obj [("text", Json.str "hi")])])
      = some (Json.obj [("text", Json.str "hi")])
    ∧ webhookHandler ⟨"", "s", true⟩ ⟨fun _ => Json.null, fun _ => false, fun _ => 0⟩ 0 "ab"
        (Json.obj [("message", Json.obj [("text", Json.str "hi")])]) ⟨none, []⟩
      = (⟨200, .json (.obj [("ok", .bool true)])⟩, ⟨none, []⟩, []) :=
  ⟨rfl, C10_webhook_no_document _ _ _ _ _ _ _ rfl rfl⟩

/-- **C5** counterexample: a file part with a non-PDF declared content type
is rejected by multer's fileFilter, and — there being no error middleware —
surfaces as Express's default 500 HTML error response, not as a 400 with
the JSON error shape. -/
theorem C5_counterexample :
    (uploadHandler ⟨"", "s", true⟩ 0 "r"
        ⟨some ⟨"a.txt", "text/plain", 5⟩, none, none⟩ ⟨none, []⟩).1
      = ⟨500, Body.htmlError "Only PDFs allowed"⟩
    ∧ (uploadHandler ⟨"", "s", true⟩ 0 "r"
        ⟨some ⟨"a.txt", "text/plain", 5⟩, none, none⟩ ⟨none, []⟩).1.status ≠ 400 := by
  constructor
  · rfl
  · intro h
    simp [uploadHandler] at h

/-- **C5** (amended): a non-PDF content type or an over-limit size is
rejected, but as the framework-default status 500 with an HTML body (there
is no error middleware mapping them to 400); only a request with no file
part yields status 400 with the JSON error shape. -/
theorem C5_upload (cfg : Config) (now : Nat) (rand : String) (req : UploadReq)
    (st : SysState) :
    (req.file = none →
      uploadHandler cfg now rand req st
        = (⟨400, .json (.obj [("error", .str "No file")])⟩, st))
    ∧ (∀ f, req.file = some f → f.mimetype ≠ "application/pdf" →
        uploadHandler cfg now rand req st = (⟨500, .htmlError "Only PDFs allowed"⟩, st))
    ∧ (∀ f, req.file = some f → f.mimetype = "application/pdf" →
        f.size > 200 * 1024 * 1024 →
        uploadHandler cfg now rand req st = (⟨500, .htmlError "File too large"⟩, st)) := by
  refine ⟨?_, ?_, ?_⟩
  · intro h
    simp [uploadHandler, h]
  · intro f hf hm
    simp [uploadHandler, hf, hm]
  · intro f hf hm hs
    simp [uploadHandler, hf, hm, hs]

theorem C5_witness :
    uploadHandler ⟨"", "s", true⟩ 0 "r" ⟨none, none, none⟩ ⟨none, []⟩
      = (⟨400, .json (.obj [("error", .str "No file")])⟩, ⟨none, []⟩)
    ∧ uploadHandler ⟨"", "s", true⟩ 0 "r"
        ⟨some ⟨"a.pdf", "application/pdf", 300 * 1024 * 1024⟩, none, none⟩ ⟨none, []⟩
      = (⟨500, .htmlError "File too large"⟩, ⟨none, []⟩) :=
  ⟨(C5_upload _ 0 "r" ⟨none, none, none⟩ ⟨none, []⟩).1 rfl,
    (C5_upload _ 0 "r" _ ⟨none, []⟩).2.2 _ rfl rfl (by norm_num)⟩

/-- **C9** counterexample: a record created by the webhook ingestion path —
whose caller supplies no category — gets category `"Telegram"`, not
`"Uncategorized"`. -/
theorem C9_counterexample :
    ((itemsOr (loadDB ((webhookHandler ⟨"", "s", false⟩
          ⟨fun _ => Json.null, fun _ => false, fun _ => 0⟩ 0 "ab"
          (Json.obj [("message", Json.obj [("document",
            Json.obj [("file_id", Json.str "F")])])])
          ⟨none, []⟩).2.1.dbFile))).map (fun it => getField it "category"))
      = [some (Json.str "Telegram")]
    ∧ some (Json.str "Telegram") ≠ some (Json.str "Uncategorized") := by
  have hstep : (webhookHandler ⟨"", "s", false⟩
        ⟨fun _ => Json.null, fun _ => false, fun _ => 0⟩ 0 "ab"
        (Json.obj [("message", Json.obj [("document",
          Json.obj [("file_id", Json.str "F")])])])
        ⟨none, []⟩).2.1.dbFile
      = addItem (webhookItem 0 (genId 0 "ab") (Json.obj [("file_id", Json.str "F")])) none :=
    rfl
  rw [hstep, addItem_none, loadDB_storeOf (by decide), itemsOr_storeOf]
  exact ⟨rfl, by simp⟩

/-- **C9** (amended): records created by direct upload with no (truthy)
category field default to `"Uncategorized"`; records created by the webhook
path always get category `"Telegram"`. -/
theorem C9_category (cfg : Config) (now : Nat) (rand : String) (st : SysState) :
    (∀ (req : UploadReq) f, req.file = some f → f.mimetype = "application/pdf" →
      f.size ≤ 200 * 1024 * 1024 → (req.category = none ∨ req.category = some "") →
      ∃ item, (uploadHandler cfg now rand req st).2.dbFile = addItem item st.dbFile
        ∧ getField item "category" = some (.str "Uncategorized"))
    ∧ (∀ id doc, getField (webhookItem now id doc) "category"
        = some (.str "Telegram")) := by
  constructor
  · intro req f hf hmime hsize hcat
    have hcat' : strFieldOr req.category "Uncategorized" = "Uncategorized" := by
      rcases hcat with h | h <;> simp [strFieldOr, h]
    refine ⟨.obj [("id", .str (parseName (uploadFilename now rand f.originalname))),
      ("source", .str "upload"), ("name", .str f.originalname),
      ("title", .str (strFieldOr req.title f.originalname)),
      ("category", .str (strFieldOr req.category "Uncategorized")),
      ("date", .num now), ("size", .num f.size),
      ("localPath", .str (pathJoin cfg.STORAGE_DIR (uploadFilename now rand f.originalname)))],
      ?_, ?_⟩
    · simp [uploadHandler, hf, hmime, show ¬ f.size > 200 * 1024 * 1024 by omega]
    · simp [getField, List.lookup, hcat']
  · intro id doc
    cases h : getField doc "file_id" <;> simp only [webhookItem, h] <;> rfl

theorem C9_witness :
    ∃ item, (uploadHandler ⟨"", "s", true⟩ 0 "r"
        ⟨some ⟨"a.pdf", "application/pdf", 5⟩, none, none⟩ ⟨none, []⟩).2.dbFile
        = addItem item none
      ∧ getField item "category" = some (.str "Uncategorized") :=
  (C9_category ⟨"", "s", true⟩ 0 "r" ⟨none, []⟩).1
    ⟨some ⟨"a.pdf", "application/pdf", 5⟩, none, none⟩ _ rfl rfl (by norm_num) (Or.inl rfl)

end CloudPDF

namespace CloudPDF

/-- The JSON error shape: an object body whose `error` property is a string. -/
def errBody (b : Body) : Prop :=
  ∃ fs s, b = Body.json (Json.obj fs) ∧ getField (Json.obj fs) "error" = some (Json.str s)

theorem errBody_json {fs : List (String × Json)} {s : String}
    (h : getField (Json.obj fs) "error" = some (Json.str s)) :
    errBody (Body.json (Json.obj fs)) := ⟨fs, s, rfl, h⟩

/-- **C1**: on `GET /api/file/:id`, an unknown id gets 404; a
telegram-sourced record with no existing local file gets 500 when the bot
credential is unset, 502 when the lookup yields no usable file path or the
download fails, and a non-telegram record with no local file gets 501 — in
each case with a JSON body carrying an `error` string. -/
theorem C1_file_errors (cfg : Config) (tg : TgEnv) (now : Nat) (st : SysState)
    (id : String) :
    (findItem id st.dbFile = none →
      (fileHandler cfg tg now st id).1.status = 404
      ∧ errBody (fileHandler cfg tg now st id).1.body)
    ∧ (∀ item, findItem id st.dbFile = some item →
        hasLocalFile item st.files = none → isTelegramSource item = true →
        cfg.BOT_TOKEN = "" →
        (fileHandler cfg tg now st id).1.status = 500
        ∧ errBody (fileHandler cfg tg now st id).1.body)
    ∧ (∀ item, findItem id st.dbFile = some item →
        hasLocalFile item st.files = none → isTelegramSource item = true →
        cfg.BOT_TOKEN ≠ "" →
        gfFilePath (tg.getFileResp (getField item "file_id")) = none →
        (fileHandler cfg tg now st id).1.status = 502
        ∧ errBody (fileHandler cfg tg now st id).1.body)
    ∧ (∀ item fp, findItem id st.dbFile = some item →
        hasLocalFile item st.files = none → isTelegramSource item = true →
        cfg.BOT_TOKEN ≠ "" →
        gfFilePath (tg.getFileResp (getField item "file_id")) = some fp →
        tg.downloadOk (jsStringOf fp) = false →
        (fileHandler cfg tg now st id).1.status = 502
        ∧ errBody (fileHandler cfg tg now st id).1.body)
    ∧ (∀ item, findItem id st.dbFile = some item →
        hasLocalFile item st.files = none → isTelegramSource item = false →
        (fileHandler cfg tg now st id).1.status = 501
        ∧ errBody (fileHandler cfg tg now st id).1.body) := by
  refine ⟨?_, ?_, ?_, ?_, ?_⟩
  · intro h
    have e : fileHandler cfg tg now st id
        = (⟨404, .json (.obj [("error", .str "Not found")])⟩, st, []) := by
      simp [fileHandler, h]
    rw [e]
    exact ⟨rfl, errBody_json rfl⟩
  · intro item h hloc htg hbt
    have e : fileHandler cfg tg now st id
        = (⟨500, .json (.obj [("error", .str "Server missing BOT_TOKEN for Telegram")])⟩,
            st, []) := by
      simp [fileHandler, h, hloc, htg, hbt]
    rw [e]
    exact ⟨rfl, errBody_json rfl⟩
  · intro item h hloc htg hbt hgf
    have e : fileHandler cfg tg now st id
        = (⟨502, .json (.obj [("error", .str "Telegram getFile failed"),
            ("info", tg.getFileResp (getField item "file_id"))])⟩,
            st, [.tgGetFile (getField item "file_id")]) := by
      simp [fileHandler, h, hloc, htg, hbt, hgf]
    rw [e]
    exact ⟨rfl, errBody_json rfl⟩
  · intro item fp h hloc htg hbt hgf hdl
    have e : fileHandler cfg tg now st id
        = (⟨502, .json (.obj [("error", .str "Failed to download from Telegram"),
            ("status", .num (tg.downloadStatus (jsStringOf fp)))])⟩,
            st, [.tgGetFile (getField item "file_id"), .tgDownload (jsStringOf fp)]) := by
      simp [fileHandler, h, hloc, htg, hbt, hgf, hdl]
    rw [e]
    exact ⟨rfl, errBody_json rfl⟩
  · intro item h hloc htg
    have e : fileHandler cfg tg now st id
        = (⟨501, .json (.obj [("error", .str "Source not implemented")])⟩, st, []) := by
      simp [fileHandler, h, hloc, htg]
    rw [e]
    exact ⟨rfl, errBody_json rfl⟩

theorem C1_witness :
    ((fileHandler ⟨"", "s", true⟩ ⟨fun _ => Json.null, fun _ => false, fun _ => 0⟩ 0
        ⟨saveDB (storeOf [Json.obj [("id", Json.str "a"), ("source", Json.str "telegram")]]), []⟩
        "a").1.status = 500
      ∧ errBody (fileHandler ⟨"", "s", true⟩ ⟨fun _ => Json.null, fun _ => false, fun _ => 0⟩ 0
        ⟨saveDB (storeOf [Json.obj [("id", Json.str "a"), ("source", Json.str "telegram")]]), []⟩
        "a").1.body)
    ∧ ((fileHandler ⟨"", "s", true⟩ ⟨fun _ => Json.null, fun _ => false, fun _ => 0⟩ 0
        ⟨saveDB (storeOf [Json.obj [("id", Json.str "a"), ("source", Json.str "telegram")]]), []⟩
        "z").1.status = 404
      ∧ errBody (fileHandler ⟨"", "s", true⟩ ⟨fun _ => Json.null, fun _ => false, fun _ => 0⟩ 0
        ⟨saveDB (storeOf [Json.obj [("id", Json.str "a"), ("source", Json.str "telegram")]]), []⟩
        "z").1.body) := by
  have hfind : findItem "a"
      (saveDB (storeOf [Json.obj [("id", Json.str "a"), ("source", Json.str "telegram")]]))
      = some (Json.obj [("id", Json.str "a"), ("source", Json.str "telegram")]) := by
    rw [findItem_canonical "a" (by decide)]
    rfl
  have hnone : findItem "z"
      (saveDB (storeOf [Json.obj [("id", Json.str "a"), ("source", Json.str "telegram")]]))
      = none := by
    rw [findItem_canonical "z" (by decide)]
    rfl
  exact ⟨(C1_file_errors ⟨"", "s", true⟩ ⟨fun _ => Json.null, fun _ => false, fun _ => 0⟩ 0
      ⟨saveDB (storeOf [Json.obj [("id", Json.str "a"), ("source", Json.str "telegram")]]), []⟩
      "a").2.1 _ hfind rfl rfl rfl,
    (C1_file_errors ⟨"", "s", true⟩ ⟨fun _ => Json.null, fun _ => false, fun _ => 0⟩ 0
      ⟨saveDB (storeOf [Json.obj [("id", Json.str "a"), ("source", Json.str "telegram")]]), []⟩
      "z").1 hnone⟩

end CloudPDF

namespace CloudPDF

theorem digitChar_ne_dash {d : Nat} (hd : d < 36) : digitChar d ≠ '-' := by
  interval_cases d <;> decide

theorem natToDigitsAux_no_dash (fuel : Nat) : ∀ n, '-' ∉ natToDigitsAux 36 fuel n := by
  induction fuel with
  | zero =>
    intro n
    simp [natToDigitsAux]
  | succ f ih =>
    intro n
    rw [natToDigitsAux]
    by_cases h : n < 36
    · rw [if_pos h]
      intro hm
      exact digitChar_ne_dash h (List.mem_singleton.mp hm).symm
    · rw [if_neg h]
      intro hm
      rcases List.mem_append.mp hm with hm1 | hm1
      · exact ih (n / 36) hm1
      · exact digitChar_ne_dash (Nat.mod_lt n (by norm_num))
          (List.mem_singleton.mp hm1).symm

theorem natToDigits_no_dash (n : Nat) : '-' ∉ natToDigits 36 n :=
  natToDigitsAux_no_dash (n + 1) n

theorem append_dash_inj : ∀ (a₁ : List Char) {a₂ b₁ b₂ : List Char},
    '-' ∉ a₁ → '-' ∉ a₂ → a₁ ++ '-' :: b₁ = a₂ ++ '-' :: b₂ → a₁ = a₂ ∧ b₁ = b₂ := by
  intro a₁
  induction a₁ with
  | nil =>
    intro a₂ b₁ b₂ h₁ h₂ h
    cases a₂ with
    | nil => simpa using h
    | cons x xs =>
      simp only [List.nil_append, List.cons_append, List.cons.injEq] at h
      refine absurd ?_ h₂
      rw [← h.1]
      exact List.mem_cons_self _ _
  | cons y ys ih =>
    intro a₂ b₁ b₂ h₁ h₂ h
    cases a₂ with
    | nil =>
      simp only [List.nil_append, List.cons_append, List.cons.injEq] at h
      refine absurd ?_ h₁
      rw [h.1]
      exact List.mem_cons_self _ _
    | cons x xs =>
      simp only [List.cons_append, List.cons.injEq] at h
      have hrec := ih (fun m => h₁ (List.mem_cons_of_mem y m))
        (fun m => h₂ (List.mem_cons_of_mem x m)) h.2
      exact ⟨by rw [h.1, hrec.1], hrec.2⟩

theorem genId_inj {n₁ n₂ : Nat} {r₁ r₂ : String}
    (h : genId n₁ r₁ = genId n₂ r₂) : n₁ = n₂ ∧ r₁ = r₂ := by
  have hd : (natToDigits 36 n₁ ++ ['-']) ++ r₁.data
      = (natToDigits 36 n₂ ++ ['-']) ++ r₂.data := congrArg String.data h
  rw [List.append_assoc, List.append_assoc, List.singleton_append,
    List.singleton_append] at hd
  have hsplit := append_dash_inj _ (natToDigits_no_dash n₁) (natToDigits_no_dash n₂) hd
  refine ⟨natToDigits_injective (by norm_num) (by norm_num) hsplit.1, ?_⟩
  cases r₁
  cases r₂
  exact congrArg String.mk hsplit.2

theorem takeWhile_stop (p : Char → Bool) : ∀ (l : List Char) (x : Char) (r : List Char),
    (∀ c ∈ l, p c = true) → p x = false → (l ++ x :: r).takeWhile p = l := by
  intro l
  induction l with
  | nil =>
    intro x r _ hx
    simp [List.takeWhile_cons, hx]
  | cons y ys ih =>
    intro x r hl hx
    have hy := hl y (List.mem_cons_self y ys)
    simp only [List.cons_append, List.takeWhile_cons, hy, if_true]
    rw [ih x r (fun c hc => hl c (List.mem_cons_of_mem y hc)) hx]

theorem extnameChars_append {g t : List Char} (hg : g ≠ []) (ht : '.' ∉ t) :
    extnameChars (g ++ '.' :: t) = '.' :: t := by
  have hrev : (g ++ '.' :: t).reverse = t.reverse ++ '.' :: g.reverse := by
    simp
  have htake : ((g ++ '.' :: t).reverse).takeWhile (fun c => c ≠ '.') = t.reverse := by
    rw [hrev]
    refine takeWhile_stop _ t.reverse '.' g.reverse (fun c hc => ?_) (by simp)
    have hcm : c ∈ t := List.mem_reverse.mp hc
    have hcd : c ≠ '.' := fun he => ht (he ▸ hcm)
    simpa using hcd
  have hg1 : 0 < g.length := List.length_pos.mpr hg
  simp only [extnameChars, htake, List.length_reverse, List.length_append, List.length_cons]
  split_ifs with h1 h2
  · exact absurd h1 (by omega)
  · exact absurd h2 (by omega)
  · simp

theorem extname_shape {o : String} (h : extname o ≠ "") :
    ∃ t, extname o = ⟨'.' :: t⟩ ∧ '.' ∉ t := by
  refine ⟨(o.data.reverse.takeWhile (fun c => c ≠ '.')).reverse, ?_, ?_⟩
  · simp only [extname, extnameChars] at h ⊢
    split_ifs at h ⊢ with h1 h2
    · exact absurd rfl h
    · exact absurd rfl h
    · rfl
  · intro hm
    have hm2 := List.mem_takeWhile_imp (List.mem_reverse.mp hm)
    simp at hm2

theorem parseName_uploadFilename (now : Nat) (rand orig : String) :
    parseName (uploadFilename now rand orig) = genId now rand := by
  obtain ⟨t, ht, htno⟩ : ∃ t,
      (if extname orig = "" then ".pdf" else extname orig) = (⟨'.' :: t⟩ : String)
      ∧ '.' ∉ t := by
    by_cases he : extname orig = ""
    · exact ⟨['p', 'd', 'f'], by rw [if_pos he], by decide⟩
    · obtain ⟨t, h1, h2⟩ := extname_shape he
      exact ⟨t, by rw [if_neg he, h1], h2⟩
  have hgne : (genId now rand).data ≠ [] := by
    have hd : (genId now rand).data = (natToDigits 36 now ++ ['-']) ++ rand.data := rfl
    rw [hd]
    simp
  have hdata : (uploadFilename now rand orig).data
      = (genId now rand).data ++ '.' :: t := by
    rw [uploadFilename, ht]
    exact rfl
  have hlen : ((genId now rand).data ++ '.' :: t).length - ('.' :: t).length
      = (genId now rand).data.length := by
    simp [List.length_append]
  rw [parseName, hdata, extnameChars_append hgne htno, hlen, List.take_left]

/-- **C3** counterexample: two webhook ingestions at the same
epoch-millisecond with the same random draw insert two distinct records
carrying the same id — id uniqueness is not unconditional. -/
theorem C3_counterexample :
    ∃ a b : Json,
      itemsOr (loadDB ((webhookHandler ⟨"", "s", false⟩
          ⟨fun _ => Json.null, fun _ => false, fun _ => 0⟩ 0 "ab"
          (Json.obj [("message", Json.obj [("document",
            Json.obj [("file_id", Json.str "B")])])])
          ((webhookHandler ⟨"", "s", false⟩
            ⟨fun _ => Json.null, fun _ => false, fun _ => 0⟩ 0 "ab"
            (Json.obj [("message", Json.obj [("document",
              Json.obj [("file_id", Json.str "A")])])])
            ⟨none, []⟩).2.1)).2.1.dbFile))
        = [a, b]
      ∧ a ≠ b
      ∧ getField a "id" = getField b "id" := by
  refine ⟨webhookItem 0 (genId 0 "ab") (Json.obj [("file_id", Json.str "A")]),
    webhookItem 0 (genId 0 "ab") (Json.obj [("file_id", Json.str "B")]), ?_, ?_, ?_⟩
  · have hstep : (webhookHandler ⟨"", "s", false⟩
          ⟨fun _ => Json.null, fun _ => false, fun _ => 0⟩ 0 "ab"
          (Json.obj [("message", Json.obj [("document",
            Json.obj [("file_id", Json.str "B")])])])
          ((webhookHandler ⟨"", "s", false⟩
            ⟨fun _ => Json.null, fun _ => false, fun _ => 0⟩ 0 "ab"
            (Json.obj [("message", Json.obj [("document",
              Json.obj [("file_id", Json.str "A")])])])
            ⟨none, []⟩).2.1)).2.1.dbFile
        = addItem (webhookItem 0 (genId 0 "ab") (Json.obj [("file_id", Json.str "B")]))
            (addItem (webhookItem 0 (genId 0 "ab") (Json.obj [("file_id", Json.str "A")]))
              none) := rfl
    rw [hstep, addItem_none, addItem_canonical _ (by decide),
      loadDB_storeOf (by decide), itemsOr_storeOf]
    rfl
  · intro h
    have h2 : getField (webhookItem 0 (genId 0 "ab") (Json.obj [("file_id", Json.str "A")]))
          "file_id"
        = getField (webhookItem 0 (genId 0 "ab") (Json.obj [("file_id", Json.str "B")]))
          "file_id" :=
      congrArg (fun j => getField j "file_id") h
    have h3 : some (Json.str "A") = some (Json.str "B") := h2
    simp at h3
  · rfl

/-- **C3** (amended): both ingestion paths stamp the record with the id
`genId now rand` — the upload path recovers it from the stored filename,
the webhook path stores it directly — and that id determines the
timestamp/random pair: two created records share an id only when both
their epoch-millisecond timestamps and their random draws coincide. -/
theorem C3_id_scheme :
    (∀ (n₁ n₂ : Nat) (r₁ r₂ : String),
      genId n₁ r₁ = genId n₂ r₂ → n₁ = n₂ ∧ r₁ = r₂)
    ∧ (∀ (now : Nat) (rand orig : String),
        parseName (uploadFilename now rand orig) = genId now rand)
    ∧ (∀ (now : Nat) (id : String) (doc : Json),
        getField (webhookItem now id doc) "id" = some (.str id)) :=
  ⟨fun _ _ _ _ h => genId_inj h, parseName_uploadFilename, fun _ _ _ => rfl⟩

theorem C3_witness :
    ((3 : Nat) = 3 ∧ "ab" = "ab")
    ∧ parseName (uploadFilename 5 "cd" "r.txt") = genId 5 "cd"
    ∧ getField (webhookItem 7 "x-y" (Json.obj [])) "id" = some (.str "x-y") :=
  ⟨C3_id_scheme.1 3 3 "ab" "ab" rfl, C3_id_scheme.2.1 5 "cd" "r.txt",
    C3_id_scheme.2.2 7 "x-y" (Json.obj [])⟩

end CloudPDF

namespace CloudPDF

/-- **C2**: resolving a telegram-sourced record with no existing local file
(credential set, lookup usable, download ok) emits, in order: the remote
lookup, the download, the full write of the bytes to a path under the
storage directory, the store update setting `localPath`/`cachedAt`, and
only then the stream of the now-local file; a second resolve of that id
then streams the local file with no remote call. -/
theorem C2_cache_flow (cfg : Config) (tg : TgEnv) (now now2 : Nat) (st : SysState)
    (id : String) (its : List Json) (item fp : Json) (cp : String) (patch : Json)
    (hdb : st.dbFile = saveDB (storeOf its))
    (hok : strOkList its = true)
    (hfind : its.find? (fun it => idMatches it id) = some item)
    (hloc : hasLocalFile item st.files = none)
    (htg : isTelegramSource item = true)
    (hbt : cfg.BOT_TOKEN ≠ "")
    (hgf : gfFilePath (tg.getFileResp (getField item "file_id")) = some fp)
    (hdl : tg.downloadOk (jsStringOf fp) = true)
    (hcp : cp = pathJoin cfg.STORAGE_DIR (id ++ "-" ++ basename (jsStringOf fp)))
    (hpatch : patch = Json.obj [("localPath", Json.str cp), ("cachedAt", Json.num now)])
    (hcpok : strOkStr cp = true)
    (hne : cp ≠ "") :
    fileHandler cfg tg now st id
      = (⟨200, .pdfStream cp⟩,
          ⟨updateItem id patch st.dbFile, cp :: st.files⟩,
          [.tgGetFile (getField item "file_id"), .tgDownload (jsStringOf fp),
            .fsWrite cp, .dbWrite (updateItem id patch st.dbFile), .streamFile cp])
    ∧ fileHandler cfg tg now2 ⟨updateItem id patch st.dbFile, cp :: st.files⟩ id
      = (⟨200, .pdfStream cp⟩, ⟨updateItem id patch st.dbFile, cp :: st.files⟩,
          [.streamFile cp]) := by
  have hfind1 : findItem id st.dbFile = some item := by
    rw [hdb, findItem_canonical id hok, hfind]
  constructor
  · rw [hpatch, hcp]
    simp [fileHandler, hfind1, hloc, htg, hbt, hgf, hdl]
  · have hpok : strOk patch = true := by
      rw [hpatch]
      have h1 : strOkStr "localPath" = true := by decide
      have h2 : strOkStr "cachedAt" = true := by decide
      simp [strOk, strOkFields, h1, h2, hcpok]
    have hpid : getField patch "id" = none := by
      rw [hpatch]
      rfl
    have hupd : updateItem id patch st.dbFile
        = saveDB (storeOf (its.map
            (fun it => if idMatches it id then spread2 it patch else it))) := by
      rw [hdb, updateItem_canonical id patch hok]
    have hok2 : strOkList (its.map
        (fun it => if idMatches it id then spread2 it patch else it)) = true := by
      refine strOkList_map hok _ (fun it hit => ?_)
      by_cases hm : idMatches it id
      · rw [if_pos hm]
        exact strOk_spread2 (strOkList_mem hok hit) hpok
      · rw [if_neg hm]
        exact strOkList_mem hok hit
    have hfind2 : findItem id (updateItem id patch st.dbFile)
        = some (spread2 item patch) := by
      rw [hupd, findItem_canonical id hok2]
      exact find?_map_update id patch hpid its item hfind
    have hlp : getField (spread2 item patch) "localPath" = some (Json.str cp) := by
      rw [getField_spread2]
      have hval : getField patch "localPath" = some (Json.str cp) := by
        rw [hpatch]
        rfl
      rw [hval]
    have hloc2 : hasLocalFile (spread2 item patch) (cp :: st.files) = some cp := by
      simp only [hasLocalFile, hlp]
      have hcond : cp ≠ "" ∧ (cp :: st.files).contains cp := ⟨hne, by simp⟩
      rw [if_pos hcond]
    simp [fileHandler, hfind2, hloc2]

theorem C2_witness :
    fileHandler ⟨"T", "s", true⟩
        ⟨fun _ => Json.obj [("ok", Json.bool true),
            ("result", Json.obj [("file_path", Json.str "d/f.pdf")])],
          fun _ => true, fun _ => 0⟩ 0
        ⟨saveDB (storeOf [Json.obj [("id", Json.str "a"), ("source", Json.str "telegram"),
          ("file_id", Json.str "F")]]), []⟩ "a"
      = (⟨200, .pdfStream "s/a-f.pdf"⟩,
          ⟨updateItem "a" (Json.obj [("localPath", Json.str "s/a-f.pdf"),
              ("cachedAt", Json.num 0)])
            (saveDB (storeOf [Json.obj [("id", Json.str "a"),
              ("source", Json.str "telegram"), ("file_id", Json.str "F")]])),
            ["s/a-f.pdf"]⟩,
          [.tgGetFile (some (Json.str "F")), .tgDownload "d/f.pdf",
            .fsWrite "s/a-f.pdf",
            .dbWrite (updateItem "a" (Json.obj [("localPath", Json.str "s/a-f.pdf"),
              ("cachedAt", Json.num 0)])
              (saveDB (storeOf [Json.obj [("id", Json.str "a"),
                ("source", Json.str "telegram"), ("file_id", Json.str "F")]]))),
            .streamFile "s/a-f.pdf"])
    ∧ fileHandler ⟨"T", "s", true⟩
        ⟨fun _ => Json.obj [("ok", Json.bool true),
            ("result", Json.obj [("file_path", Json.str "d/f.pdf")])],
          fun _ => true, fun _ => 0⟩ 1
        ⟨updateItem "a" (Json.obj [("localPath", Json.str "s/a-f.pdf"),
            ("cachedAt", Json.num 0)])
          (saveDB (storeOf [Json.obj [("id", Json.str "a"),
            ("source", Json.str "telegram"), ("file_id", Json.str "F")]])),
          ["s/a-f.pdf"]⟩ "a"
      = (⟨200, .pdfStream "s/a-f.pdf"⟩,
          ⟨updateItem "a" (Json.obj [("localPath", Json.str "s/a-f.pdf"),
              ("cachedAt", Json.num 0)])
            (saveDB (storeOf [Json.obj [("id", Json.str "a"),
              ("source", Json.str "telegram"), ("file_id", Json.str "F")]])),
            ["s/a-f.pdf"]⟩,
          [.streamFile "s/a-f.pdf"]) :=
  C2_cache_flow ⟨"T", "s", true⟩
    ⟨fun _ => Json.obj [("ok", Json.bool true),
        ("result", Json.obj [("file_path", Json.str "d/f.pdf")])],
      fun _ => true, fun _ => 0⟩ 0 1
    ⟨saveDB (storeOf [Json.obj [("id", Json.str "a"), ("source", Json.str "telegram"),
      ("file_id", Json.str "F")]]), []⟩ "a"
    [Json.obj [("id", Json.str "a"), ("source", Json.str "telegram"),
      ("file_id", Json.str "F")]]
    (Json.obj [("id", Json.str "a"), ("source", Json.str "telegram"),
      ("file_id", Json.str "F")])
    (Json.str "d/f.pdf") "s/a-f.pdf"
    (Json.obj [("localPath", Json.str "s/a-f.pdf"), ("cachedAt", Json.num 0)])
    rfl (by decide) rfl rfl rfl (by decide) rfl rfl rfl rfl (by decide) (by decide)

end CloudPDF
